import Mathlib

/-!
The oplog replication engine of go-sync-mongo.

A shallow embedding of `db/ts_recorder.go` (the disk checkpoint) and of
`Connection.SyncOplog` in `db/db.go` (start-point resolution, the catch-up loop and the
tailing loop), followed by the properties of the replication engine.

Conventions of the embedding:

* `bson.MongoTimestamp` is Go's `int64`; it is an `Int` here and the only arithmetic on
  it (`sec<<32 + ord`) is wrapped explicitly with `wrapInt64`.
* A file's content and a Go string are lists of bytes; a byte is a `Nat`.
* The two MongoDB servers, the file system and the clock are inputs of the run. Every
  call the run makes to them is recorded, in program order, in a trace of `Event`s.
* The tailing loop of the program never ends on its own; the list of rounds handed to it
  is the horizon of the observation, and a run that outlives it has outcome `running`.
-/

namespace SyncMongo

/-! ## Errors -/

/-- Values of Go's `error` interface coming from the libraries the program calls. The
program never inspects them; it logs them or wraps them. -/
inductive Err
  | ErrNotExist
  | ErrSyntax
  | ErrRange
  | other (msg : String)
  deriving DecidableEq, Repr

deriving instance DecidableEq for Except

/-! ## `fmt.Sprintf("%v", ts)` and `strconv.ParseInt(s, 10, 64)` -/

/-- Smallest `int64`. -/
def minInt64 : Int := -(2 ^ 63)

/-- Largest `int64`. -/
def maxInt64 : Int := 2 ^ 63 - 1

/-- Largest `uint64`. -/
def maxUint64 : Nat := 2 ^ 64 - 1

/-- Two's-complement wrap of an integer into the `int64` range. -/
def wrapInt64 (x : Int) : Int := (x + 2 ^ 63) % 2 ^ 64 - 2 ^ 63

/-- The byte `'0' + d`. -/
def digitByte (d : Nat) : Nat := 48 + d

/-- The digit loop of `fmt.(*fmt).fmtInteger` in base 10: `for u >= 10 { ... u = u/10 }`,
then the leading digit. Digits are written right to left in front of `acc`. A `uint64`
has at most 20 decimal digits, which is the fuel `fmtInteger` is called with. -/
def fmtDigits : Nat → Nat → List Nat → List Nat
  | 0, _, acc => acc
  | fuel + 1, u, acc =>
    if u < 10 then digitByte u :: acc
    else fmtDigits fuel (u / 10) (digitByte (u % 10) :: acc)

/-- The text `fmt.Sprintf("%v", ts)` produces for an `int64`-kinded value: a minus sign
for a negative value, then the decimal digits of the magnitude. -/
def Sprintf (ts : Int) : List Nat :=
  if ts < 0 then 45 :: fmtDigits 20 ts.natAbs [] else fmtDigits 20 ts.natAbs []

/-- Go's `lower(c)`, which is `c | ('x' - 'X')`. -/
def lower (c : Nat) : Nat := c ||| 32

/-- The loop of `strconv.ParseUint(s, 10, 64)` over the bytes of `s`, from the
accumulator `n`. `cutoff` is `maxUint64/10 + 1`. -/
def parseUintLoop : List Nat → Nat → Except Err Nat
  | [], n => .ok n
  | c :: cs, n =>
    if 48 ≤ c ∧ c ≤ 57 then
      let d := c - 48
      if d ≥ 10 then .error .ErrSyntax
      else if n ≥ maxUint64 / 10 + 1 then .error .ErrRange
      else
        let n10 := n * 10
        let n1 := (n10 + d) % 2 ^ 64
        if n1 < n10 ∨ n1 > maxUint64 then .error .ErrRange
        else parseUintLoop cs n1
    else if 97 ≤ lower c ∧ lower c ≤ 122 then
      let d := lower c - 97 + 10
      if d ≥ 10 then .error .ErrSyntax
      else if n ≥ maxUint64 / 10 + 1 then .error .ErrRange
      else
        let n10 := n * 10
        let n1 := (n10 + d) % 2 ^ 64
        if n1 < n10 ∨ n1 > maxUint64 then .error .ErrRange
        else parseUintLoop cs n1
    else .error .ErrSyntax

/-- The function `strconv.ParseUint(s, 10, 64)`: the empty string is a syntax error. -/
def ParseUint (s : List Nat) : Except Err Nat :=
  match s with
  | [] => .error .ErrSyntax
  | _ :: _ => parseUintLoop s 0

/-- The function `strconv.ParseInt(s, 10, 64)`: an optional sign, then `ParseUint`, then
the range check against `1 << 63`. -/
def ParseInt (s : List Nat) : Except Err Int :=
  match s with
  | [] => .error .ErrSyntax
  | c :: rest =>
    let neg := decide (c = 45)
    let s1 := if c = 43 ∨ c = 45 then rest else s
    match ParseUint s1 with
    | .error e => .error e
    | .ok un =>
      if ¬ neg = true ∧ un ≥ 2 ^ 63 then .error .ErrRange
      else if neg = true ∧ un > 2 ^ 63 then .error .ErrRange
      else .ok (if neg = true then -(un : Int) else (un : Int))

/-! ## `db/ts_recorder.go` -/

/-- The file system as the recorder sees it: the content of each path, if the file
exists, and whether `ioutil.WriteFile` can open the path for writing. -/
structure FileSystem where
  content : String → Option (List Nat)
  writable : String → Bool

/-- The call `ioutil.ReadFile(path)`. -/
def ReadFile (fs : FileSystem) (path : String) : Except Err (List Nat) :=
  match fs.content path with
  | none => .error .ErrNotExist
  | some data => .ok data

/-- The call `ioutil.WriteFile(path, data, perm)`: the file is created or truncated and
holds exactly `data` afterwards. -/
def WriteFile (fs : FileSystem) (path : String) (data : List Nat) : Option Err × FileSystem :=
  if fs.writable path = true then
    (none, { fs with content := fun p => if p = path then some data else fs.content p })
  else (some (.other "open failed"), fs)

/-- The interface `TimestampRecorder`, over the state `σ` its implementation keeps. -/
structure TimestampRecorder (σ : Type) where
  Write : Int → σ → Option Err × σ
  Read : σ → Except Err Int × σ

/-- The struct `DiskTimestampRecorder`. -/
structure DiskTimestampRecorder where
  filepath : String

/-- The method `DiskTimestampRecorder.Write`. -/
def DiskTimestampRecorder.Write (r : DiskTimestampRecorder) (ts : Int) (fs : FileSystem) :
    Option Err × FileSystem :=
  let str := Sprintf ts
  WriteFile fs r.filepath str

/-- The method `DiskTimestampRecorder.Read`. -/
def DiskTimestampRecorder.Read (r : DiskTimestampRecorder) (fs : FileSystem) :
    Except Err Int :=
  match ReadFile fs r.filepath with
  | .error err => .error err
  | .ok data =>
    match ParseInt data with
    | .error err => .error err
    | .ok ts => .ok ts

/-- The disk recorder as an implementation of the interface, its state being the file
system. -/
def DiskTimestampRecorder.toRecorder (r : DiskTimestampRecorder) :
    TimestampRecorder FileSystem where
  Write := fun ts fs => r.Write ts fs
  Read := fun fs => (r.Read fs, fs)

/-- The file system holding the single file `path` with content `data`, writable. -/
def singleFile (path : String) (data : List Nat) : FileSystem where
  content := fun p => if p = path then some data else none
  writable := fun _ => true

/-- The bytes of an ASCII string literal. -/
def bytes (s : String) : List Nat := s.toList.map Char.toNat

/-! ## `db/db.go`: data -/

/-- An ordered BSON document (`bson.D`); the engine forwards it untouched. -/
abbrev BsonD := List (String × String)

/-- The struct `Oplog`: one entry of the source's operation log. -/
structure Oplog where
  Timestamp : Int
  HistoryID : Int
  Version : Int
  Operation : String
  Namespace : String
  Object : BsonD
  Query : BsonD
  deriving DecidableEq, Repr

/-- The struct `ApplyOpsResponse`. -/
structure ApplyOpsResponse where
  Ok : Bool
  ErrMsg : String
  deriving DecidableEq, Repr

/-- The struct `bson.RegEx`, as far as the program fills it. -/
structure RegEx where
  Pattern : String
  deriving DecidableEq, Repr

/-- The value stored under the key `"ts"` of a query: `{"$gt": t}` or `{"$gte": t}`. -/
inductive TsBound
  | gt (t : Int)
  | gte (t : Int)
  deriving DecidableEq, Repr

/-- A query document (`bson.M`) of the program: the key `"ts"`, always present, and the
key `"ns"` with `{"$in": dbnames}` when it has been set. -/
structure Query where
  ts : TsBound
  ns : Option (List RegEx)
  deriving DecidableEq, Repr

/-- The struct `Config`, restricted to the field `SyncOplog` reads. -/
structure Config where
  IgnoreApplyError : Bool
  deriving DecidableEq, Repr

/-- The flags `SyncOplog` reads through viper, and the two readings of the wall clock
(`time.Now().Unix()`) on line 149. -/
structure Env where
  since : Int
  ordinal : Int
  fast_stop : Bool
  now1 : Int
  now2 : Int
  deriving DecidableEq, Repr

/-- What `dst.Session.Run(bson.M{"applyOps": ops}, &applyOpsResponse)` gives back to
lines 206 and 252: a non-nil error, or nil with the decoded response. The error is a
failure of the connection or, as mgo reports it, a reply of the server that holds a
non-empty string `errmsg` (see `sessionRun`); the rejection of an apply by the server
therefore reaches the program as `failed` whenever the reply carries such a message, and
as `response` with `Ok = false` only when it does not. -/
inductive RunResult
  | failed (err : Err)
  | response (r : ApplyOpsResponse)
  deriving DecidableEq, Repr

/-- The destination connection, over the state `δ` of the destination server. -/
structure Destination (δ : Type) where
  Run : List Oplog → δ → RunResult × δ

/-- One pass of the outer tailing loop as the cursor shows it: the entries `iter.Next`
delivers before it returns false, then `iter.Err()` and `iter.Timeout()`. -/
structure TailRound where
  entries : List Oplog
  err : Option Err
  timeout : Bool
  deriving DecidableEq, Repr

/-- The source connection `c.Session`: the answer of the log-head lookup (line 143), of
`DatabaseNames` (line 105), of the catch-up cursor for a query (the entries delivered,
then `iter.Err()`), and the rounds the tailing cursor lives through for a query. -/
structure Source where
  head : Except Err Int
  DatabaseNames : Except Err (List String)
  Find : Query → List Oplog × Option Err
  Tail : Query → List TailRound

/-- The errors `SyncOplog` returns. -/
inductive SyncError
  | oplogFindOne (err : Err)
  | noDatabases
  | applyingOps (err : Err)
  | serverError (errMsg : String)
  | iter (err : Err)
  deriving DecidableEq, Repr

/-- How an observed run ends: `SyncOplog` returned (with an error or `nil`), or it is
still tailing when the observation stops. -/
inductive Outcome
  | returned (err : Option SyncError)
  | running
  deriving DecidableEq, Repr

/-- The calls of a run to its collaborators, in program order. -/
inductive Event
  | headLookup
  | recorderRead
  | listDatabases
  | find (q : Query)
  | tail (q : Query)
  | next (e : Oplog)
  | applyOps (ops : List Oplog) (res : RunResult)
  | write (ts : Int)
  deriving DecidableEq, Repr

/-- The variables of `SyncOplog` that change while entries are processed, the states of
the recorder and of the destination, and the trace so far. -/
structure State (σ δ : Type) where
  trace : List Event
  recorder : σ
  dst : δ
  opCount : Nat
  tailQuery : Query

/-- A finished observation of `SyncOplog`. -/
structure Run (σ δ : Type) where
  state : State σ δ
  outcome : Outcome

/-! ## `db/db.go`: `SyncOplog` -/

/-- The method `Connection.databaseRegExs`, from the answer of `DatabaseNames`. -/
def databaseRegExs (names : Except Err (List String)) : Except Err (List RegEx) :=
  match names with
  | .error err => .error err
  | .ok dbnames =>
    .ok ((dbnames.filter (fun dbname => dbname ≠ "local" ∧ dbname ≠ "admin")).map
      (fun dbname => { Pattern := dbname ++ ".*" }))

/-- Lines 156 to 162: the since-timestamp `sec<<32 + ord`, zero unless the flag `since`
is greater than 0. -/
def sinceFlagTimestamp (env : Env) : Int :=
  if env.since > 0 then wrapInt64 (env.since * 2 ^ 32 + env.ordinal) else 0

/-- Lines 163 to 176 on the variable `sinceTimestamp`: `read` is `none` when no recorder
is configured, otherwise the result of its `Read`. -/
def resolveStart (env : Env) (read : Option (Except Err Int)) : Int :=
  let sinceTimestamp := sinceFlagTimestamp env
  match read with
  | none => sinceTimestamp
  | some (.error _) => sinceTimestamp
  | some (.ok recordTimestamp) =>
    if recordTimestamp > sinceTimestamp then recordTimestamp else sinceTimestamp

/-- Lines 148 to 176 on the key `"ts"` of `restoreQuery`: the wall-clock bound of line
149, overwritten on line 161 and on line 170. -/
def restoreBound (env : Env) (read : Option (Except Err Int)) : TsBound :=
  let b0 := TsBound.gt (wrapInt64 (env.now1 * 2 ^ 32 + env.now2))
  let b1 := if env.since > 0 then TsBound.gt (sinceFlagTimestamp env) else b0
  match read with
  | none => b1
  | some (.error _) => b1
  | some (.ok recordTimestamp) =>
    if recordTimestamp > sinceFlagTimestamp env then TsBound.gt recordTimestamp else b1

/-- Lines 197 to 229 and, word for word, lines 243 to 275: the body of both loops after
the entry has been read. Returns the new state and the error `SyncOplog` returns with,
if it returns here. -/
def applyEntry {σ δ : Type} (cfg : Config) (dst : Destination δ)
    (tsRecorder : Option (TimestampRecorder σ)) (st : State σ δ) (oplogEntry : Oplog) :
    State σ δ × Option SyncError :=
  if oplogEntry.Operation = "n" then (st, none)
  else
    let opsToApply := [oplogEntry]
    let res := dst.Run opsToApply st.dst
    let st1 : State σ δ :=
      { st with
        opCount := st.opCount + 1
        dst := res.2
        trace := st.trace ++ [Event.applyOps opsToApply res.1] }
    match res.1 with
    | .failed err => (st1, some (.applyingOps err))
    | .response applyOpsResponse =>
      if applyOpsResponse.Ok = false ∧ cfg.IgnoreApplyError = false then
        (st1, some (.serverError applyOpsResponse.ErrMsg))
      else
        match tsRecorder with
        | none => (st1, none)
        | some r =>
          ({ st1 with
             recorder := (r.Write oplogEntry.Timestamp st1.recorder).2
             trace := st1.trace ++ [Event.write oplogEntry.Timestamp] }, none)

/-- The body of the catch-up loop, lines 193 to 229: `tailQuery` is replaced by a fresh
document holding only `{"ts": {"$gte": oplogEntry.Timestamp}}`, then the entry is
processed. -/
def restoreEntry {σ δ : Type} (cfg : Config) (dst : Destination δ)
    (tsRecorder : Option (TimestampRecorder σ)) (st : State σ δ) (oplogEntry : Oplog) :
    State σ δ × Option SyncError :=
  applyEntry cfg dst tsRecorder
    { st with tailQuery := { ts := .gte oplogEntry.Timestamp, ns := none } } oplogEntry

/-- The body of the inner tailing loop, lines 243 to 275. -/
def tailEntry {σ δ : Type} (cfg : Config) (dst : Destination δ)
    (tsRecorder : Option (TimestampRecorder σ)) (st : State σ δ) (oplogEntry : Oplog) :
    State σ δ × Option SyncError :=
  applyEntry cfg dst tsRecorder st oplogEntry

/-- The loop `for iter.Next(&oplogEntry) { body }` over the entries the cursor delivers:
it stops at the first entry on which the body returns. -/
def runLoop {σ δ : Type} (body : State σ δ → Oplog → State σ δ × Option SyncError) :
    State σ δ → List Oplog → State σ δ × Option SyncError
  | st, [] => (st, none)
  | st, oplogEntry :: rest =>
    let r := body { st with trace := st.trace ++ [Event.next oplogEntry] } oplogEntry
    match r.2 with
    | some err => (r.1, some err)
    | none => runLoop body r.1 rest

/-- The outer tailing loop, lines 241 to 293, over the rounds the cursor lives through.
After the inner loop: a cursor error returns it; a timeout returns `nil` under
`fast_stop` and otherwise keeps the cursor; a cursor that ended for another reason is
reopened with `tailQuery`. -/
def tailLoop {σ δ : Type} (env : Env) (cfg : Config) (dst : Destination δ)
    (tsRecorder : Option (TimestampRecorder σ)) : List TailRound → State σ δ → Run σ δ
  | [], st => { state := st, outcome := .running }
  | round :: rounds, st =>
    let r := runLoop (tailEntry cfg dst tsRecorder) st round.entries
    match r.2 with
    | some err => { state := r.1, outcome := .returned (some err) }
    | none =>
      match round.err with
      | some err => { state := r.1, outcome := .returned (some (.iter err)) }
      | none =>
        if round.timeout = true then
          if env.fast_stop = true then { state := r.1, outcome := .returned none }
          else tailLoop env cfg dst tsRecorder rounds r.1
        else
          tailLoop env cfg dst tsRecorder rounds
            { r.1 with trace := r.1.trace ++ [Event.tail r.1.tailQuery] }

/-- Lines 239 to 293: the tailing cursor is opened with `tailQuery`, then the loop. -/
def tailing {σ δ : Type} (env : Env) (c : Source) (cfg : Config) (dst : Destination δ)
    (tsRecorder : Option (TimestampRecorder σ)) (st : State σ δ) : Run σ δ :=
  tailLoop env cfg dst tsRecorder (c.Tail st.tailQuery)
    { st with trace := st.trace ++ [Event.tail st.tailQuery] }

/-- Lines 189 to 237: the catch-up phase, entered when `sinceTimestamp > 0`. Returns the
state after it and the error `SyncOplog` returns with, if it returns in this phase. -/
def catchUp {σ δ : Type} (c : Source) (cfg : Config) (dst : Destination δ)
    (tsRecorder : Option (TimestampRecorder σ)) (sinceTimestamp : Int)
    (restoreQuery : Query) (st : State σ δ) : State σ δ × Option SyncError :=
  if sinceTimestamp > 0 then
    let cursor := c.Find restoreQuery
    let r := runLoop (restoreEntry cfg dst tsRecorder)
      { st with trace := st.trace ++ [Event.find restoreQuery] } cursor.1
    match r.2 with
    | some err => (r.1, some err)
    | none =>
      match cursor.2 with
      | some err => (r.1, some (.iter err))
      | none => (r.1, none)
  else (st, none)

/-- Lines 163 and 164: the checkpoint is read when a recorder is configured. Returns the
result of `Read`, if it was called, and the state of the recorder afterwards. -/
def readCheckpoint {σ : Type} (tsRecorder : Option (TimestampRecorder σ)) (s0 : σ) :
    Option (Except Err Int) × σ :=
  match tsRecorder with
  | none => (none, s0)
  | some r => (some (r.Read s0).1, (r.Read s0).2)

/-- The event of the call of `Read`, when a recorder is configured. -/
def readEvents {σ : Type} (tsRecorder : Option (TimestampRecorder σ)) : List Event :=
  match tsRecorder with
  | none => []
  | some _ => [Event.recorderRead]

/-- Line 178, `dbnames, _ := c.databaseRegExs()`: the error is dropped and the slice is
then nil. -/
def dbnamesOf (c : Source) : List RegEx :=
  match databaseRegExs c.DatabaseNames with
  | .error _ => []
  | .ok l => l

/-- The state of the run on line 186, after the start-up calls: the trace holds the
log-head lookup, the checkpoint read and the database listing; `tailQuery` is the
document of line 152 with the key `"ns"` of line 181. -/
def startState {σ δ : Type} (c : Source) (tsRecorder : Option (TimestampRecorder σ))
    (s0 : σ) (d0 : δ) (headTs : Int) : State σ δ :=
  { trace := Event.headLookup :: (readEvents tsRecorder ++ [Event.listDatabases]),
    recorder := (readCheckpoint tsRecorder s0).2, dst := d0, opCount := 0,
    tailQuery := { ts := .gt headTs, ns := some (dbnamesOf c) } }

/-- The document `restoreQuery` on line 186. -/
def restoreQueryOf {σ : Type} (env : Env) (c : Source)
    (tsRecorder : Option (TimestampRecorder σ)) (s0 : σ) : Query :=
  { ts := restoreBound env (readCheckpoint tsRecorder s0).1, ns := some (dbnamesOf c) }

/-- The method `Connection.SyncOplog(dst, tsRecorder)`, from the initial states `s0` of
the recorder and `d0` of the destination. -/
def SyncOplog {σ δ : Type} (env : Env) (c : Source) (cfg : Config) (dst : Destination δ)
    (tsRecorder : Option (TimestampRecorder σ)) (s0 : σ) (d0 : δ) : Run σ δ :=
  match c.head with
  | .error err =>
    { state := { trace := [Event.headLookup], recorder := s0, dst := d0, opCount := 0,
                 tailQuery := { ts := .gt 0, ns := none } },
      outcome := .returned (some (.oplogFindOne err)) }
  | .ok headTs =>
    let sinceTimestamp := resolveStart env (readCheckpoint tsRecorder s0).1
    if (dbnamesOf c).length > 0 then
      let r := catchUp c cfg dst tsRecorder sinceTimestamp
        (restoreQueryOf env c tsRecorder s0) (startState c tsRecorder s0 d0 headTs)
      match r.2 with
      | some err => { state := r.1, outcome := .returned (some err) }
      | none => tailing env c cfg dst tsRecorder r.1
    else
      { state := { startState c tsRecorder s0 d0 headTs with
                   tailQuery := { ts := .gt headTs, ns := none } },
        outcome := .returned (some .noDatabases) }

/-! ## Projections of a trace -/

/-- The batches submitted to `applyOps`, in order. -/
def appliedBatches (tr : List Event) : List (List Oplog) :=
  tr.filterMap (fun ev => match ev with
    | .applyOps ops _ => some ops
    | _ => none)

/-- The entries the cursors delivered, in order. -/
def delivered (tr : List Event) : List Oplog :=
  tr.filterMap (fun ev => match ev with
    | .next e => some e
    | _ => none)

/-- The values passed to the recorder's `Write`, in order. -/
def writes (tr : List Event) : List Int :=
  tr.filterMap (fun ev => match ev with
    | .write ts => some ts
    | _ => none)

/-- An apply result after which the loop body goes on: the server answered, and it
accepted or its rejection is ignored. -/
def completes (cfg : Config) (res : RunResult) : Bool :=
  match res with
  | .failed _ => false
  | .response r => r.Ok || cfg.IgnoreApplyError

/-- The timestamps of the entries whose apply completed, in apply order. -/
def completedTimestamps (cfg : Config) (tr : List Event) : List Int :=
  tr.filterMap (fun ev => match ev with
    | .applyOps ops res => if completes cfg res = true then ops.head?.map (·.Timestamp) else none
    | _ => none)

/-! ## Reading of the words "a single text-encoded integer" -/

/-- The number a string of decimal digits denotes, most significant digit first. -/
def decimalValue (body : List Nat) : Nat :=
  body.foldl (fun n c => n * 10 + (c - 48)) 0

/-- The bytes `data` are, as a whole, the base-10 text of the integer `v`: an optional
sign, then one or more decimal digits and nothing else. -/
def IsDecimalText (data : List Nat) (v : Int) : Prop :=
  ∃ body : List Nat, body ≠ [] ∧ (∀ c ∈ body, 48 ≤ c ∧ c ≤ 57) ∧
    ((data = body ∧ v = decimalValue body) ∨
     (data = 43 :: body ∧ v = decimalValue body) ∨
     (data = 45 :: body ∧ v = -(decimalValue body : Int)))

/-! ## The shape of a trace -/

/-- The error `SyncOplog` returns with after an apply that does not complete: line 208
for a transport error, line 217 for a rejection that is not ignored. -/
def abortError (res : RunResult) : SyncError :=
  match res with
  | .failed err => .applyingOps err
  | .response r => .serverError r.ErrMsg

/-- The checkpoint write that follows a completed apply of `e`, lines 224 to 229. -/
def writeEvents (hasRecorder : Bool) (e : Oplog) : List Event :=
  if hasRecorder = true then [Event.write e.Timestamp] else []

/-- The events that are neither a delivery, an apply nor a checkpoint write. -/
def Event.isControl (ev : Event) : Bool :=
  match ev with
  | .next _ => false
  | .applyOps _ _ => false
  | .write _ => false
  | _ => true

/-- A stretch of trace in which every delivered entry went through the whole loop body:
a no-op is skipped; any other entry is applied in a batch of its own, the apply
completes, and the checkpoint write, if a recorder is configured, comes right after. -/
inductive Blocks (cfg : Config) (hasRecorder : Bool) : List Event → Prop
  | nil : Blocks cfg hasRecorder []
  | control (ev : Event) (rest : List Event) :
      ev.isControl = true → Blocks cfg hasRecorder rest → Blocks cfg hasRecorder (ev :: rest)
  | skipped (e : Oplog) (rest : List Event) :
      e.Operation = "n" → Blocks cfg hasRecorder rest →
      Blocks cfg hasRecorder (Event.next e :: rest)
  | applied (e : Oplog) (res : RunResult) (rest : List Event) :
      e.Operation ≠ "n" → completes cfg res = true → Blocks cfg hasRecorder rest →
      Blocks cfg hasRecorder
        (Event.next e :: Event.applyOps [e] res :: (writeEvents hasRecorder e ++ rest))

/-- The events of a loop that ran from a state to a state: whole blocks if the loop ended
with the cursor, and otherwise whole blocks followed by the delivery and the apply of the
entry on which the body returned `err`. -/
def LoopTrace (cfg : Config) (hasRecorder : Bool) (evs : List Event)
    (abort : Option SyncError) : Prop :=
  match abort with
  | none => Blocks cfg hasRecorder evs
  | some err => ∃ b e res, evs = b ++ [Event.next e, Event.applyOps [e] res] ∧
      Blocks cfg hasRecorder b ∧ e.Operation ≠ "n" ∧ completes cfg res = false ∧
      err = abortError res

/-- The events of a whole run with its outcome: whole blocks, or whole blocks followed by
the delivery and the apply of the entry whose apply made `SyncOplog` return. -/
def RunTrace (cfg : Config) (hasRecorder : Bool) (evs : List Event) (o : Outcome) : Prop :=
  Blocks cfg hasRecorder evs ∨
  ∃ b e res, evs = b ++ [Event.next e, Event.applyOps [e] res] ∧
      Blocks cfg hasRecorder b ∧ e.Operation ≠ "n" ∧ completes cfg res = false ∧
      o = .returned (some (abortError res))

/-! ## Concrete collaborators -/

/-- How the source server matches a pattern `dbname.*` of `databaseRegExs` against a
namespace, for a database name without regular-expression metacharacters: the match is
unanchored, so the pattern matches when the name occurs in the namespace. -/
def literalMatch (p : RegEx) (ns : String) : Bool :=
  decide (p.Pattern.toList.dropLast.dropLast <:+: ns.toList)

/-- Whether an entry satisfies a query document, `rx` deciding whether a pattern matches
a namespace: the bound on `"ts"`, and the `$in` list on `"ns"` when the key is set. -/
def Query.matches (rx : RegEx → String → Bool) (q : Query) (e : Oplog) : Bool :=
  (match q.ts with
    | .gt t => decide (t < e.Timestamp)
    | .gte t => decide (t ≤ e.Timestamp)) &&
  (match q.ns with
    | none => true
    | some pats => pats.any (fun p => rx p e.Namespace))

/-- A source whose operation log is the fixed list `log`, in natural order, and whose
databases are `dbs`. The log head is the last entry; a cursor delivers the entries that
satisfy its query, in log order; the tailing cursor then times out. -/
def logSource (rx : RegEx → String → Bool) (log : List Oplog) (dbs : List String) : Source where
  head := match log.getLast? with
    | none => .error (.other "not found")
    | some e => .ok e.Timestamp
  DatabaseNames := .ok dbs
  Find := fun q => (log.filter (q.matches rx), none)
  Tail := fun q => [{ entries := log.filter (q.matches rx), err := none, timeout := true }]

/-- A destination whose successive calls of `Run` return the results of a script, and
which accepts every call once the script is used up. -/
def scripted : Destination (List RunResult) where
  Run := fun _ script =>
    match script with
    | [] => (.response { Ok := true, ErrMsg := "" }, [])
    | res :: rest => (res, rest)

/-- An entry of the log with the fields the engine looks at. -/
def entry (ts : Int) (op ns : String) : Oplog :=
  { Timestamp := ts, HistoryID := 0, Version := 2, Operation := op, Namespace := ns,
    Object := [], Query := [] }

/-- The flags of a run with a since-timestamp pair and `fast_stop` set. -/
def flags (since ordinal : Int) : Env :=
  { since := since, ordinal := ordinal, fast_stop := true, now1 := 1700000000,
    now2 := 1700000000 }

/-- A three-entry log on the database `app`: an insert, a no-op and an update. -/
def sampleLog : List Oplog :=
  [entry 100 "i" "app.users", entry 101 "n" "app.users", entry 102 "u" "app.users"]

/-! ## Comparing runs with different recorders -/

/-- The state of the recorder after the checkpoint write of lines 224 to 229. -/
def written {σ : Type} (tsRecorder : Option (TimestampRecorder σ)) (ts : Int) (s : σ) : σ :=
  match tsRecorder with
  | none => s
  | some r => (r.Write ts s).2

/-- A state without the state of its recorder. -/
def State.forget {σ δ : Type} (st : State σ δ) : State Unit δ :=
  { trace := st.trace, recorder := (), dst := st.dst, opCount := st.opCount,
    tailQuery := st.tailQuery }

/-- A recorder without state: `Read` answers `read`, `Write` does nothing. -/
def blankRecorder (read : Except Err Int) : TimestampRecorder Unit where
  Write := fun _ _ => (none, ())
  Read := fun _ => (read, ())

/-- The stateless recorder that stands for `tsRecorder` read in the state `s0`. -/
def blanked {σ : Type} (tsRecorder : Option (TimestampRecorder σ)) (s0 : σ) :
    Option (TimestampRecorder Unit) :=
  tsRecorder.map (fun r => blankRecorder (r.Read s0).1)

/-! ## Reading of the words "start-point precedence" -/

/-- The checkpoint the engine has: absent when no recorder is configured or its `Read`
returned an error. -/
def checkpointOf (read : Option (Except Err Int)) : Option Int :=
  match read with
  | some (.ok C) => some C
  | _ => none

/-- The resolved start as the specification words it: the checkpoint `C` if it exists and
`C > S`, otherwise the since-value `S`. -/
def specStart (S : Int) (C : Option Int) : Int :=
  match C with
  | some C => if C > S then C else S
  | none => S

/-! ## Concrete runs -/

/-- A destination that accepts every apply call. -/
def acceptAll : Destination Unit where
  Run := fun _ _ => (.response { Ok := true, ErrMsg := "" }, ())

/-- The entries submitted to `applyOps`, in order. -/
def appliedEntries (tr : List Event) : List Oplog := (appliedBatches tr).flatten

/-- A log with an entry of the database `app` followed by an entry of the internal
database `admin`. -/
def mixedLog : List Oplog :=
  [entry 100 "i" "app.users", entry 101 "i" "admin.system.users"]

/-! ## The destination server behind `Session.Run` -/

/-- The reply document of the destination server to `applyOps`, as far as mgo and the
program look at it: the field `ok`, and the field `errmsg` when the reply holds one of
string type. -/
structure Reply where
  ok : Bool
  errmsg : Option String
  deriving DecidableEq, Repr

/-- What comes back from the destination for an `applyOps` command: the connection fails,
or the server replies. -/
inductive Answer
  | lost (err : Err)
  | reply (r : Reply)
  deriving DecidableEq, Repr

/-- The call `Session.Run(cmd, &applyOpsResponse)` of mgo on what came back. A lost
connection is an error. A reply is decoded into the response; mgo's `checkQueryError`
then looks for a string field `errmsg` in the reply of a command and, when the message is
not empty, makes `Run` return an error carrying it. Otherwise `Run` returns nil. -/
def sessionRun (a : Answer) : RunResult :=
  match a with
  | .lost err => .failed err
  | .reply r =>
    match r.errmsg with
    | none => .response { Ok := r.ok, ErrMsg := "" }
    | some m =>
      if m = "" then .response { Ok := r.ok, ErrMsg := "" } else .failed (.other m)

/-- The destination connection to a server that answers the successive `applyOps`
commands from a script, and accepts every command once the script is used up. -/
def serverScripted : Destination (List Answer) where
  Run := fun _ script =>
    match script with
    | [] => (sessionRun (.reply { ok := true, errmsg := none }), [])
    | a :: rest => (sessionRun a, rest)

/-! ## The recorder's state and the calls of `Write` -/

/-- The state of the recorder after the calls `Write ts` for the values `ts` of `tss`, in
order, from the state `s`. -/
def replayWrites {σ : Type} (r : TimestampRecorder σ) (tss : List Int) (s : σ) : σ :=
  tss.foldl (fun s ts => (r.Write ts s).2) s

/-! ## The destination's state and the calls of `Run` -/

/-- The results recorded with the applies of a trace, in order. -/
def appliedResults (tr : List Event) : List RunResult :=
  tr.filterMap (fun ev => match ev with
    | .applyOps _ res => some res
    | _ => none)

/-- The state of the destination after the calls `Run ops` for the batches of `batches`,
in order, from the state `d`. -/
def replayRuns {δ : Type} (dst : Destination δ) (batches : List (List Oplog)) (d : δ) : δ :=
  batches.foldl (fun d ops => (dst.Run ops d).2) d

/-- What the calls `Run ops` for the batches of `batches`, in order, return from the state
`d`. -/
def resultsOf {δ : Type} (dst : Destination δ) : List (List Oplog) → δ → List RunResult
  | [], _ => []
  | ops :: rest, d => (dst.Run ops d).1 :: resultsOf dst rest (dst.Run ops d).2

/-- The applies recorded in the trace `tr` are the calls of `Run` the run made: from the
initial state `d0` they lead to the destination state `d` and return the recorded
results. -/
def RunsReplayed {δ : Type} (dst : Destination δ) (d0 : δ) (tr : List Event) (d : δ) : Prop :=
  d = replayRuns dst (appliedBatches tr) d0 ∧
  appliedResults tr = resultsOf dst (appliedBatches tr) d0

/-! ## The checkpoint file: formatting and parsing -/

theorem fmtDigits_head (fuel u : Nat) (acc : List Nat) :
    ∃ d rest, fmtDigits (fuel + 1) u acc = d :: rest ∧ 48 ≤ d ∧ d ≤ 57 := by
  induction fuel generalizing u acc with
  | zero =>
    by_cases h : u < 10
    · exact ⟨digitByte u, acc, by simp [fmtDigits, h], by simp [digitByte], by
        simp only [digitByte]; omega⟩
    · have h2 : u % 10 < 10 := Nat.mod_lt _ (by decide)
      exact ⟨digitByte (u % 10), acc, by simp [fmtDigits, h], by simp [digitByte], by
        simp only [digitByte]; omega⟩
  | succ k ih =>
    by_cases h : u < 10
    · exact ⟨digitByte u, acc, by simp [fmtDigits, h], by simp [digitByte], by
        simp only [digitByte]; omega⟩
    · obtain ⟨d, rest, h1, h2, h3⟩ := ih (u / 10) (digitByte (u % 10) :: acc)
      refine ⟨d, rest, ?_, h2, h3⟩
      rw [← h1]
      conv_lhs => rw [fmtDigits]
      simp [h]

theorem parseUintLoop_digit (d n : Nat) (cs : List Nat) (hd : d < 10)
    (hn : n * 10 + d < 2 ^ 64) :
    parseUintLoop (digitByte d :: cs) n = parseUintLoop cs (n * 10 + d) := by
  have h1 : 48 ≤ digitByte d ∧ digitByte d ≤ 57 := by
    simp only [digitByte]; omega
  have h2 : digitByte d - 48 = d := by simp [digitByte]
  have h3 : ¬ (n ≥ maxUint64 / 10 + 1) := by
    simp only [maxUint64]; omega
  have h4 : (n * 10 + d) % 2 ^ 64 = n * 10 + d := Nat.mod_eq_of_lt hn
  have h5 : ¬ (n * 10 + d < n * 10 ∨ n * 10 + d > maxUint64) := by
    simp only [maxUint64]; omega
  rw [parseUintLoop]
  simp only [h1, and_self, if_true, h2, h3, if_false, h4, h5, ge_iff_le]
  have h6 : ¬ (10 ≤ d) := by omega
  simp [h6]

theorem parseUintLoop_fmtDigits (fuel u : Nat) (acc : List Nat) (hf : u < 10 ^ fuel)
    (hu : u < 2 ^ 64) :
    parseUintLoop (fmtDigits fuel u acc) 0 = parseUintLoop acc u := by
  induction fuel generalizing u acc with
  | zero =>
    have : u = 0 := by simpa using hf
    subst this
    simp [fmtDigits]
  | succ k ih =>
    by_cases h : u < 10
    · have := parseUintLoop_digit u 0 acc h (by omega)
      simp only [fmtDigits, h, if_true]
      rw [this]; simp
    · have hk : u / 10 < 10 ^ k := by
        rw [Nat.div_lt_iff_lt_mul (by decide)]
        rw [pow_succ] at hf; exact hf
      have hq : u / 10 < 2 ^ 64 := by omega
      have hm : u % 10 < 10 := Nat.mod_lt _ (by decide)
      simp only [fmtDigits, h, if_false]
      rw [ih (u / 10) (digitByte (u % 10) :: acc) hk hq]
      rw [parseUintLoop_digit (u % 10) (u / 10) acc hm (by omega)]
      congr 1
      omega

theorem ParseUint_fmtDigits (u : Nat) (hu : u < 2 ^ 64) :
    ParseUint (fmtDigits 20 u []) = .ok u := by
  obtain ⟨d, rest, h1, _, _⟩ := fmtDigits_head 19 u []
  have h2 := parseUintLoop_fmtDigits 20 u [] (by omega) hu
  rw [h1] at h2 ⊢
  simp only [ParseUint]
  rw [h2]; simp [parseUintLoop]

theorem ParseInt_Sprintf (ts : Int) (hlo : minInt64 ≤ ts) (hhi : ts ≤ maxInt64) :
    ParseInt (Sprintf ts) = .ok ts := by
  simp only [minInt64, maxInt64] at hlo hhi
  have hu : ts.natAbs < 2 ^ 64 := by omega
  have hp := ParseUint_fmtDigits ts.natAbs hu
  by_cases hneg : ts < 0
  · simp only [Sprintf, hneg, if_true, ParseInt]
    simp only [decide_True, or_true, if_true, hp]
    have h1 : ¬ (ts.natAbs > 2 ^ 63) := by omega
    have h2 : -((ts.natAbs : Nat) : Int) = ts := by omega
    rw [if_neg (by simp), if_neg (by simpa using h1), h2]
  · obtain ⟨d, rest, h1, h2, h3⟩ := fmtDigits_head 19 ts.natAbs []
    simp only [Sprintf, hneg, if_false]
    simp only [Nat.reduceAdd] at h1
    rw [h1] at hp ⊢
    have hd1 : d ≠ 45 := by omega
    have hd2 : d ≠ 43 := by omega
    simp only [ParseInt, hd1, hd2, or_self, if_false, hp, decide_False]
    have h4 : ¬ (ts.natAbs ≥ 2 ^ 63) := by omega
    have h5 : ((ts.natAbs : Nat) : Int) = ts := by omega
    rw [if_neg (by simpa using h4), if_neg (by simp), h5]
    simp

theorem parseUintLoop_ok (cs : List Nat) (n m : Nat) (hn : n < 2 ^ 64)
    (h : parseUintLoop cs n = .ok m) :
    (∀ c ∈ cs, 48 ≤ c ∧ c ≤ 57) ∧ m = cs.foldl (fun n c => n * 10 + (c - 48)) n ∧
      m < 2 ^ 64 := by
  induction cs generalizing n with
  | nil =>
    simp only [parseUintLoop, Except.ok.injEq] at h
    subst h
    exact ⟨by simp, by simp, hn⟩
  | cons c cs ih =>
    rw [parseUintLoop] at h
    by_cases hc : 48 ≤ c ∧ c ≤ 57
    · simp only [hc, and_self, if_true] at h
      split_ifs at h with h1 h2 h3
      have hlt : n * 10 + (c - 48) < 2 ^ 64 := by
        by_contra hcon
        apply h3
        simp only [maxUint64] at h2 ⊢
        omega
      rw [Nat.mod_eq_of_lt hlt] at h
      obtain ⟨ha, hb, hc2⟩ := ih _ hlt h
      refine ⟨?_, ?_, hc2⟩
      · intro x hx
        rcases List.mem_cons.mp hx with rfl | hx
        · exact hc
        · exact ha x hx
      · simpa using hb
    · simp only [hc, if_false] at h
      split_ifs at h with h1 h2
      omega

theorem ParseUint_ok (s : List Nat) (m : Nat) (h : ParseUint s = .ok m) :
    s ≠ [] ∧ (∀ c ∈ s, 48 ≤ c ∧ c ≤ 57) ∧ m = decimalValue s := by
  cases s with
  | nil => simp [ParseUint] at h
  | cons c cs =>
    simp only [ParseUint] at h
    obtain ⟨h1, h2, _⟩ := parseUintLoop_ok (c :: cs) 0 m (by norm_num) h
    exact ⟨by simp, h1, h2⟩

theorem ParseInt_ok (s : List Nat) (v : Int) (h : ParseInt s = .ok v) :
    IsDecimalText s v ∧ minInt64 ≤ v ∧ v ≤ maxInt64 := by
  cases s with
  | nil => simp [ParseInt] at h
  | cons c rest =>
    simp only [ParseInt] at h
    split at h
    · simp at h
    · rename_i un hun
      obtain ⟨h1, h2, h3⟩ := ParseUint_ok _ _ hun
      split_ifs at h with h4 h5 h6
      · simp only [Except.ok.injEq] at h
        have hc : c = 45 := by simpa using h6
        subst hc
        simp only [or_true, if_true] at h1 h2 h3
        have hle : un ≤ 2 ^ 63 := by
          by_contra hcon
          exact h5 ⟨h6, by omega⟩
        refine ⟨⟨rest, h1, h2, Or.inr (Or.inr ⟨rfl, ?_⟩)⟩, ?_, ?_⟩
        · rw [← h, h3]
        · simp only [minInt64]; omega
        · simp only [maxInt64]; omega
      · simp only [Except.ok.injEq] at h
        have hc : c ≠ 45 := by simpa using h6
        have hlt : un < 2 ^ 63 := by
          by_contra hcon
          exact h4 ⟨h6, by omega⟩
        refine ⟨?_, by simp only [minInt64]; omega, by simp only [maxInt64]; omega⟩
        by_cases hp : c = 43
        · subst hp
          simp only [true_or, if_true] at h1 h2 h3
          exact ⟨rest, h1, h2, Or.inr (Or.inl ⟨rfl, by rw [← h, h3]⟩)⟩
        · have hs : (if c = 43 ∨ c = 45 then rest else c :: rest) = c :: rest := by
            simp [hp, hc]
          rw [hs] at h1 h2 h3
          exact ⟨c :: rest, h1, h2, Or.inl ⟨rfl, by rw [← h, h3]⟩⟩

/-! ## The shape of the trace of a run -/

theorem Blocks.append {cfg : Config} {hr : Bool} {a b : List Event}
    (ha : Blocks cfg hr a) (hb : Blocks cfg hr b) : Blocks cfg hr (a ++ b) := by
  induction ha with
  | nil => simpa using hb
  | control ev rest h _ ih => exact Blocks.control ev _ h ih
  | skipped e rest h _ ih => exact Blocks.skipped e _ h ih
  | applied e res rest h1 h2 _ ih =>
    have : Blocks cfg hr _ := Blocks.applied e res _ h1 h2 ih
    simpa [List.append_assoc] using this

theorem Blocks.single_control {cfg : Config} {hr : Bool} (ev : Event)
    (h : ev.isControl = true) : Blocks cfg hr [ev] :=
  Blocks.control ev [] h Blocks.nil

/-- What the loop body does to the state, by cases on the entry and on the result of the
apply call. -/
theorem applyEntry_cases {σ δ : Type} (cfg : Config) (dst : Destination δ)
    (tsRecorder : Option (TimestampRecorder σ)) (st : State σ δ) (e : Oplog) :
    (e.Operation = "n" ∧ applyEntry cfg dst tsRecorder st e = (st, none)) ∨
    (e.Operation ≠ "n" ∧ completes cfg (dst.Run [e] st.dst).1 = false ∧
      (applyEntry cfg dst tsRecorder st e).2 = some (abortError (dst.Run [e] st.dst).1) ∧
      (applyEntry cfg dst tsRecorder st e).1.trace =
        st.trace ++ [Event.applyOps [e] (dst.Run [e] st.dst).1] ∧
      (applyEntry cfg dst tsRecorder st e).1.recorder = st.recorder ∧
      (applyEntry cfg dst tsRecorder st e).1.tailQuery = st.tailQuery) ∨
    (e.Operation ≠ "n" ∧ completes cfg (dst.Run [e] st.dst).1 = true ∧
      (applyEntry cfg dst tsRecorder st e).2 = none ∧
      (applyEntry cfg dst tsRecorder st e).1.trace =
        st.trace ++ Event.applyOps [e] (dst.Run [e] st.dst).1 ::
          writeEvents tsRecorder.isSome e ∧
      (applyEntry cfg dst tsRecorder st e).1.tailQuery = st.tailQuery) := by
  by_cases hn : e.Operation = "n"
  · left; exact ⟨hn, by simp [applyEntry, hn]⟩
  · right
    cases hres : (dst.Run [e] st.dst).1 with
    | failed err =>
      left
      simp [applyEntry, hn, hres, completes, abortError]
    | response r =>
      by_cases hc : r.Ok = false ∧ cfg.IgnoreApplyError = false
      · left
        simp [applyEntry, hn, hres, completes, abortError, hc]
      · right
        have hc2 : (r.Ok || cfg.IgnoreApplyError) = true := by
          cases h1 : r.Ok <;> cases h2 : cfg.IgnoreApplyError <;> simp_all
        cases tsRecorder with
        | none => simp [applyEntry, hn, hres, completes, hc, hc2, writeEvents]
        | some r => simp [applyEntry, hn, hres, completes, hc, hc2, writeEvents]

theorem runLoop_cons_some {σ δ : Type}
    (body : State σ δ → Oplog → State σ δ × Option SyncError) (st : State σ δ) (e : Oplog)
    (rest : List Oplog) (err : SyncError)
    (h : (body { st with trace := st.trace ++ [Event.next e] } e).2 = some err) :
    runLoop body st (e :: rest) =
      ((body { st with trace := st.trace ++ [Event.next e] } e).1, some err) := by
  simp [runLoop, h]

theorem runLoop_cons_none {σ δ : Type}
    (body : State σ δ → Oplog → State σ δ × Option SyncError) (st : State σ δ) (e : Oplog)
    (rest : List Oplog)
    (h : (body { st with trace := st.trace ++ [Event.next e] } e).2 = none) :
    runLoop body st (e :: rest) =
      runLoop body (body { st with trace := st.trace ++ [Event.next e] } e).1 rest := by
  simp [runLoop, h]

theorem delivered_append (a b : List Event) : delivered (a ++ b) = delivered a ++ delivered b := by
  simp [delivered, List.filterMap_append]

theorem delivered_next (e : Oplog) (l : List Event) :
    delivered (Event.next e :: l) = e :: delivered l := by
  simp [delivered, List.filterMap_cons]

theorem delivered_applyOps (ops : List Oplog) (res : RunResult) (l : List Event) :
    delivered (Event.applyOps ops res :: l) = delivered l := by
  simp [delivered, List.filterMap_cons]

theorem delivered_writeEvents (hr : Bool) (e : Oplog) : delivered (writeEvents hr e) = [] := by
  cases hr <;> simp [delivered, writeEvents, List.filterMap_cons]

/-- Both loop bodies are `applyEntry` run from a state that differs from the current one
in `tailQuery` at most. -/
theorem restoreEntry_body {σ δ : Type} (cfg : Config) (dst : Destination δ)
    (tsRecorder : Option (TimestampRecorder σ)) (st : State σ δ) (e : Oplog) :
    ∃ q, restoreEntry cfg dst tsRecorder st e =
      applyEntry cfg dst tsRecorder { st with tailQuery := q } e :=
  ⟨_, rfl⟩

theorem tailEntry_body {σ δ : Type} (cfg : Config) (dst : Destination δ)
    (tsRecorder : Option (TimestampRecorder σ)) (st : State σ δ) (e : Oplog) :
    ∃ q, tailEntry cfg dst tsRecorder st e =
      applyEntry cfg dst tsRecorder { st with tailQuery := q } e :=
  ⟨st.tailQuery, rfl⟩

/-- The events a loop adds to the trace, and the entries it consumed. -/
theorem runLoop_trace {σ δ : Type} (cfg : Config) (dst : Destination δ)
    (tsRecorder : Option (TimestampRecorder σ))
    (body : State σ δ → Oplog → State σ δ × Option SyncError)
    (hb : ∀ st e, ∃ q, body st e = applyEntry cfg dst tsRecorder { st with tailQuery := q } e)
    (es : List Oplog) (st : State σ δ) :
    ∃ evs, (runLoop body st es).1.trace = st.trace ++ evs ∧
      LoopTrace cfg tsRecorder.isSome evs (runLoop body st es).2 ∧
      delivered evs <+: es ∧ ((runLoop body st es).2 = none → delivered evs = es) := by
  induction es generalizing st with
  | nil => exact ⟨[], by simp [runLoop], by simp [runLoop, LoopTrace, Blocks.nil],
      by simp [delivered], by simp [delivered]⟩
  | cons e rest ih =>
    obtain ⟨q, hq⟩ := hb { st with trace := st.trace ++ [Event.next e] } e
    rcases applyEntry_cases cfg dst tsRecorder
      { st with trace := st.trace ++ [Event.next e], tailQuery := q } e with
      ⟨hn, h⟩ | ⟨hn, hc, herr, htr, _, _⟩ | ⟨hn, hc, herr, htr, _⟩
    · have h2 : (body { st with trace := st.trace ++ [Event.next e] } e).2 = none := by
        rw [hq, h]
      rw [runLoop_cons_none body st e rest h2, hq, h]
      obtain ⟨evs, h3, h4, h5, h6⟩ :=
        ih { st with trace := st.trace ++ [Event.next e], tailQuery := q }
      refine ⟨Event.next e :: evs, by rw [h3]; simp, ?_, ?_, ?_⟩
      · cases hr : (runLoop body
          { st with trace := st.trace ++ [Event.next e], tailQuery := q } rest).2 with
        | none =>
          rw [hr] at h4
          exact Blocks.skipped e evs hn h4
        | some err =>
          rw [hr] at h4
          obtain ⟨b, e2, res, hb1, hb2, hb3, hb4, hb5⟩ := h4
          exact ⟨Event.next e :: b, e2, res, by rw [hb1]; simp,
            Blocks.skipped e b hn hb2, hb3, hb4, hb5⟩
      · rw [delivered_next]; exact (List.prefix_cons_inj e).mpr h5
      · intro h7; rw [delivered_next, h6 h7]
    · have h2 : (body { st with trace := st.trace ++ [Event.next e] } e).2 =
          some (abortError (dst.Run [e] st.dst).1) := by
        rw [hq]; exact herr
      rw [runLoop_cons_some body st e rest _ h2, hq]
      refine ⟨[Event.next e, Event.applyOps [e] (dst.Run [e] st.dst).1], ?_, ?_, ?_, ?_⟩
      · rw [htr]; simp
      · exact ⟨[], e, _, by simp, Blocks.nil, hn, hc, rfl⟩
      · simp [delivered, List.filterMap_cons]
      · intro h7; simp at h7
    · have h2 : (body { st with trace := st.trace ++ [Event.next e] } e).2 = none := by
        rw [hq]; exact herr
      rw [runLoop_cons_none body st e rest h2, hq]
      obtain ⟨evs, h3, h4, h5, h6⟩ := ih (applyEntry cfg dst tsRecorder
        { st with trace := st.trace ++ [Event.next e], tailQuery := q } e).1
      refine ⟨Event.next e :: Event.applyOps [e] (dst.Run [e] st.dst).1 ::
        (writeEvents tsRecorder.isSome e ++ evs), ?_, ?_, ?_, ?_⟩
      · rw [h3, htr]; simp
      · cases hr : (runLoop body (applyEntry cfg dst tsRecorder
          { st with trace := st.trace ++ [Event.next e], tailQuery := q } e).1 rest).2 with
        | none =>
          rw [hr] at h4
          exact Blocks.applied e _ evs hn hc h4
        | some err =>
          rw [hr] at h4
          obtain ⟨b, e2, res, hb1, hb2, hb3, hb4, hb5⟩ := h4
          exact ⟨Event.next e :: Event.applyOps [e] (dst.Run [e] st.dst).1 ::
            (writeEvents tsRecorder.isSome e ++ b), e2, res, by rw [hb1]; simp,
            Blocks.applied e _ b hn hc hb2, hb3, hb4, hb5⟩
      · rw [delivered_next, delivered_applyOps, delivered_append, delivered_writeEvents]
        exact (List.prefix_cons_inj e).mpr (by simpa using h5)
      · intro h7
        rw [delivered_next, delivered_applyOps, delivered_append, delivered_writeEvents,
          h6 h7]
        simp

theorem RunTrace.prepend {cfg : Config} {hr : Bool} {a b : List Event} {o : Outcome}
    (ha : Blocks cfg hr a) (hb : RunTrace cfg hr b o) : RunTrace cfg hr (a ++ b) o := by
  rcases hb with hb | ⟨b1, e, res, h1, h2, h3, h4, h5⟩
  · exact Or.inl (ha.append hb)
  · exact Or.inr ⟨a ++ b1, e, res, by rw [h1]; simp, ha.append h2, h3, h4, h5⟩

theorem RunTrace.of_loop {cfg : Config} {hr : Bool} {evs : List Event}
    {abort : Option SyncError} (h : LoopTrace cfg hr evs abort) (err : SyncError)
    (ha : abort = some err) : RunTrace cfg hr evs (.returned (some err)) := by
  subst ha
  obtain ⟨b, e, res, h1, h2, h3, h4, h5⟩ := h
  exact Or.inr ⟨b, e, res, h1, h2, h3, h4, by rw [h5]⟩

theorem tailLoop_cons_abort {σ δ : Type} (env : Env) (cfg : Config) (dst : Destination δ)
    (tsRecorder : Option (TimestampRecorder σ)) (round : TailRound) (rounds : List TailRound)
    (st : State σ δ) (err : SyncError)
    (hr : (runLoop (tailEntry cfg dst tsRecorder) st round.entries).2 = some err) :
    tailLoop env cfg dst tsRecorder (round :: rounds) st =
      { state := (runLoop (tailEntry cfg dst tsRecorder) st round.entries).1,
        outcome := .returned (some err) } := by
  simp [tailLoop, hr]

theorem tailLoop_cons_err {σ δ : Type} (env : Env) (cfg : Config) (dst : Destination δ)
    (tsRecorder : Option (TimestampRecorder σ)) (round : TailRound) (rounds : List TailRound)
    (st : State σ δ) (err : Err)
    (hr : (runLoop (tailEntry cfg dst tsRecorder) st round.entries).2 = none)
    (he : round.err = some err) :
    tailLoop env cfg dst tsRecorder (round :: rounds) st =
      { state := (runLoop (tailEntry cfg dst tsRecorder) st round.entries).1,
        outcome := .returned (some (.iter err)) } := by
  simp [tailLoop, hr, he]

theorem tailLoop_cons_stop {σ δ : Type} (env : Env) (cfg : Config) (dst : Destination δ)
    (tsRecorder : Option (TimestampRecorder σ)) (round : TailRound) (rounds : List TailRound)
    (st : State σ δ)
    (hr : (runLoop (tailEntry cfg dst tsRecorder) st round.entries).2 = none)
    (he : round.err = none) (ht : round.timeout = true) (hf : env.fast_stop = true) :
    tailLoop env cfg dst tsRecorder (round :: rounds) st =
      { state := (runLoop (tailEntry cfg dst tsRecorder) st round.entries).1,
        outcome := .returned none } := by
  simp [tailLoop, hr, he, ht, hf]

theorem tailLoop_cons_timeout {σ δ : Type} (env : Env) (cfg : Config) (dst : Destination δ)
    (tsRecorder : Option (TimestampRecorder σ)) (round : TailRound) (rounds : List TailRound)
    (st : State σ δ)
    (hr : (runLoop (tailEntry cfg dst tsRecorder) st round.entries).2 = none)
    (he : round.err = none) (ht : round.timeout = true) (hf : env.fast_stop = false) :
    tailLoop env cfg dst tsRecorder (round :: rounds) st =
      tailLoop env cfg dst tsRecorder rounds
        (runLoop (tailEntry cfg dst tsRecorder) st round.entries).1 := by
  simp [tailLoop, hr, he, ht, hf]

theorem tailLoop_cons_reopen {σ δ : Type} (env : Env) (cfg : Config) (dst : Destination δ)
    (tsRecorder : Option (TimestampRecorder σ)) (round : TailRound) (rounds : List TailRound)
    (st : State σ δ)
    (hr : (runLoop (tailEntry cfg dst tsRecorder) st round.entries).2 = none)
    (he : round.err = none) (ht : round.timeout = false) :
    tailLoop env cfg dst tsRecorder (round :: rounds) st =
      tailLoop env cfg dst tsRecorder rounds
        { (runLoop (tailEntry cfg dst tsRecorder) st round.entries).1 with
          trace := (runLoop (tailEntry cfg dst tsRecorder) st round.entries).1.trace ++
            [Event.tail (runLoop (tailEntry cfg dst tsRecorder) st
              round.entries).1.tailQuery] } := by
  simp [tailLoop, hr, he, ht]

/-- The events the tailing loop adds to the trace. -/
theorem tailLoop_trace {σ δ : Type} (env : Env) (cfg : Config) (dst : Destination δ)
    (tsRecorder : Option (TimestampRecorder σ)) (rounds : List TailRound) (st : State σ δ) :
    ∃ evs, (tailLoop env cfg dst tsRecorder rounds st).state.trace = st.trace ++ evs ∧
      RunTrace cfg tsRecorder.isSome evs (tailLoop env cfg dst tsRecorder rounds st).outcome ∧
      delivered evs <+: (rounds.map (·.entries)).flatten := by
  induction rounds generalizing st with
  | nil => exact ⟨[], by simp [tailLoop], Or.inl Blocks.nil, by simp [delivered]⟩
  | cons round rounds ih =>
    obtain ⟨evs, h1, h2, h3, h4⟩ := runLoop_trace cfg dst tsRecorder
      (tailEntry cfg dst tsRecorder) (tailEntry_body cfg dst tsRecorder) round.entries st
    have hpre : delivered evs <+: ((round :: rounds).map (·.entries)).flatten := by
      simp only [List.map_cons, List.flatten_cons]
      exact h3.trans (List.prefix_append _ _)
    cases hr : (runLoop (tailEntry cfg dst tsRecorder) st round.entries).2 with
    | some err =>
      rw [tailLoop_cons_abort env cfg dst tsRecorder round rounds st err hr]
      exact ⟨evs, h1, RunTrace.of_loop h2 err hr, hpre⟩
    | none =>
      rw [hr] at h2
      have h2 : Blocks cfg tsRecorder.isSome evs := h2
      have hd := h4 hr
      cases he : round.err with
      | some err =>
        rw [tailLoop_cons_err env cfg dst tsRecorder round rounds st err hr he]
        exact ⟨evs, h1, Or.inl h2, hpre⟩
      | none =>
        cases ht : round.timeout with
        | true =>
          cases hf : env.fast_stop with
          | true =>
            rw [tailLoop_cons_stop env cfg dst tsRecorder round rounds st hr he ht hf]
            exact ⟨evs, h1, Or.inl h2, hpre⟩
          | false =>
            rw [tailLoop_cons_timeout env cfg dst tsRecorder round rounds st hr he ht hf]
            obtain ⟨evs2, g1, g2, g3⟩ :=
              ih (runLoop (tailEntry cfg dst tsRecorder) st round.entries).1
            refine ⟨evs ++ evs2, by rw [g1, h1]; simp, RunTrace.prepend h2 g2, ?_⟩
            simp only [List.map_cons, List.flatten_cons]
            rw [delivered_append, hd]
            exact (List.prefix_append_right_inj _).mpr g3
        | false =>
          rw [tailLoop_cons_reopen env cfg dst tsRecorder round rounds st hr he ht]
          obtain ⟨evs2, g1, g2, g3⟩ :=
            ih { (runLoop (tailEntry cfg dst tsRecorder) st round.entries).1 with
              trace := (runLoop (tailEntry cfg dst tsRecorder) st round.entries).1.trace ++
                [Event.tail (runLoop (tailEntry cfg dst tsRecorder) st
                  round.entries).1.tailQuery] }
          refine ⟨evs ++ Event.tail (runLoop (tailEntry cfg dst tsRecorder) st
                  round.entries).1.tailQuery :: evs2, by rw [g1]; simp [h1],
            RunTrace.prepend h2
              (RunTrace.prepend (a := [_]) (Blocks.single_control _ rfl) g2), ?_⟩
          simp only [List.map_cons, List.flatten_cons]
          rw [delivered_append, hd]
          refine (List.prefix_append_right_inj _).mpr ?_
          simpa [delivered, List.filterMap_cons] using g3

/-- The events the catch-up phase adds to the trace. -/
theorem catchUp_trace {σ δ : Type} (c : Source) (cfg : Config) (dst : Destination δ)
    (tsRecorder : Option (TimestampRecorder σ)) (since : Int) (q : Query) (st : State σ δ) :
    ∃ evs, (catchUp c cfg dst tsRecorder since q st).1.trace = st.trace ++ evs ∧
      (∀ err, (catchUp c cfg dst tsRecorder since q st).2 = some err →
        RunTrace cfg tsRecorder.isSome evs (.returned (some err))) ∧
      ((catchUp c cfg dst tsRecorder since q st).2 = none → Blocks cfg tsRecorder.isSome evs) ∧
      delivered evs <+: (if since > 0 then (c.Find q).1 else []) ∧
      ((catchUp c cfg dst tsRecorder since q st).2 = none →
        delivered evs = if since > 0 then (c.Find q).1 else []) := by
  by_cases hs : since > 0
  · obtain ⟨evs, h1, h2, h3, h4⟩ := runLoop_trace cfg dst tsRecorder
      (restoreEntry cfg dst tsRecorder) (restoreEntry_body cfg dst tsRecorder) (c.Find q).1
      { st with trace := st.trace ++ [Event.find q] }
    have hfind : Blocks cfg tsRecorder.isSome [Event.find q] := Blocks.single_control _ rfl
    refine ⟨Event.find q :: evs, ?_, ?_, ?_, ?_, ?_⟩
    · simp only [catchUp, hs, if_true]
      split <;> [skip; split] <;> simpa using h1
    · intro err herr
      simp only [catchUp, hs, if_true] at herr
      split at herr
      · rename_i err2 hr
        simp only [Option.some.injEq] at herr
        subst herr
        exact RunTrace.prepend (a := [_]) hfind (RunTrace.of_loop h2 _ hr)
      · rename_i hr
        rw [hr] at h2
        exact Or.inl (hfind.append h2)
    · intro hnone
      simp only [catchUp, hs, if_true] at hnone
      split at hnone
      · simp at hnone
      · rename_i hr
        rw [hr] at h2
        exact hfind.append h2
    · simpa [delivered, List.filterMap_cons, hs] using h3
    · intro hnone
      simp only [catchUp, hs, if_true] at hnone
      split at hnone
      · simp at hnone
      · rename_i hr
        simpa [delivered, List.filterMap_cons, hs] using h4 hr
  · exact ⟨[], by simp [catchUp, hs], by simp [catchUp, hs],
      fun _ => Blocks.nil, by simp [delivered], fun _ => by simp [delivered, hs]⟩

/-- The events the tailing phase adds to the trace. -/
theorem tailing_trace {σ δ : Type} (env : Env) (c : Source) (cfg : Config)
    (dst : Destination δ) (tsRecorder : Option (TimestampRecorder σ)) (st : State σ δ) :
    ∃ evs, (tailing env c cfg dst tsRecorder st).state.trace = st.trace ++ evs ∧
      RunTrace cfg tsRecorder.isSome evs (tailing env c cfg dst tsRecorder st).outcome ∧
      delivered evs <+: ((c.Tail st.tailQuery).map (·.entries)).flatten := by
  obtain ⟨evs, h1, h2, h3⟩ := tailLoop_trace env cfg dst tsRecorder (c.Tail st.tailQuery)
    { st with trace := st.trace ++ [Event.tail st.tailQuery] }
  refine ⟨Event.tail st.tailQuery :: evs, ?_, ?_, ?_⟩
  · simp only [tailing]; rw [h1]; simp
  · exact RunTrace.prepend (a := [_]) (Blocks.single_control _ rfl) h2
  · simpa [delivered, List.filterMap_cons] using h3

theorem startState_blocks {σ δ : Type} (cfg : Config) (c : Source)
    (tsRecorder : Option (TimestampRecorder σ)) (s0 : σ) (d0 : δ) (headTs : Int) :
    Blocks cfg tsRecorder.isSome (startState c tsRecorder s0 d0 headTs : State σ δ).trace := by
  cases tsRecorder with
  | none =>
    exact Blocks.control _ _ rfl (Blocks.single_control _ rfl)
  | some r =>
    exact Blocks.control _ _ rfl (Blocks.control _ _ rfl (Blocks.single_control _ rfl))

/-- The trace of every run is made of whole blocks, followed, when an apply made
`SyncOplog` return, by the delivery and the apply of that entry. -/
theorem SyncOplog_trace {σ δ : Type} (env : Env) (c : Source) (cfg : Config)
    (dst : Destination δ) (tsRecorder : Option (TimestampRecorder σ)) (s0 : σ) (d0 : δ) :
    RunTrace cfg tsRecorder.isSome (SyncOplog env c cfg dst tsRecorder s0 d0).state.trace
      (SyncOplog env c cfg dst tsRecorder s0 d0).outcome := by
  cases hh : c.head with
  | error err =>
    simp only [SyncOplog, hh]
    exact Or.inl (Blocks.single_control _ rfl)
  | ok headTs =>
    by_cases hdb : (dbnamesOf c).length > 0
    · obtain ⟨evs, h1, h2, h3, _, _⟩ := catchUp_trace c cfg dst tsRecorder
        (resolveStart env (readCheckpoint tsRecorder s0).1)
        (restoreQueryOf env c tsRecorder s0) (startState c tsRecorder s0 d0 headTs)
      have hst := startState_blocks cfg c tsRecorder s0 d0 headTs
      simp only [SyncOplog, hh, hdb, if_true]
      split
      · rename_i err hr
        simp only []
        rw [h1]
        exact RunTrace.prepend hst (h2 err hr)
      · rename_i hr
        obtain ⟨evs2, g1, g2, _⟩ := tailing_trace env c cfg dst tsRecorder
          (catchUp c cfg dst tsRecorder
            (resolveStart env (readCheckpoint tsRecorder s0).1)
            (restoreQueryOf env c tsRecorder s0)
            (startState c tsRecorder s0 d0 headTs)).1
        rw [g1, h1, List.append_assoc]
        exact RunTrace.prepend hst (RunTrace.prepend (h3 hr) g2)
    · simp only [SyncOplog, hh, hdb, if_false]
      exact Or.inl (startState_blocks cfg c tsRecorder s0 d0 headTs)

/-! ## Occurrences of events in a trace -/

/-- In a stretch of whole blocks, every apply is the apply of the entry delivered just
before it, the entry is not a no-op, the apply completes, and the checkpoint write, if a
recorder is configured, comes right after. -/
theorem Blocks.applyOps_occ {cfg : Config} {hr : Bool} {tr : List Event}
    (h : Blocks cfg hr tr) : ∀ (pre : List Event) (ops : List Oplog) (res : RunResult)
      (post : List Event), tr = pre ++ Event.applyOps ops res :: post →
      ∃ e pre1, ops = [e] ∧ e.Operation ≠ "n" ∧ completes cfg res = true ∧
        pre = pre1 ++ [Event.next e] ∧ ∃ post1, post = writeEvents hr e ++ post1 := by
  induction h with
  | nil => intro pre ops res post heq; simp at heq
  | control ev rest hc _ ih =>
    intro pre ops res post heq
    cases pre with
    | nil =>
      simp only [List.nil_append, List.cons.injEq] at heq
      rw [heq.1] at hc; simp [Event.isControl] at hc
    | cons p pre1 =>
      simp only [List.cons_append, List.cons.injEq] at heq
      obtain ⟨e, pre2, g1, g2, g3, g4, g5⟩ := ih pre1 ops res post heq.2
      exact ⟨e, p :: pre2, g1, g2, g3, by rw [g4]; simp, g5⟩
  | skipped e0 rest hn _ ih =>
    intro pre ops res post heq
    cases pre with
    | nil => simp at heq
    | cons p pre1 =>
      simp only [List.cons_append, List.cons.injEq] at heq
      obtain ⟨e, pre2, g1, g2, g3, g4, g5⟩ := ih pre1 ops res post heq.2
      exact ⟨e, p :: pre2, g1, g2, g3, by rw [g4]; simp, g5⟩
  | applied e0 res0 rest hn hc _ ih =>
    intro pre ops res post heq
    cases pre with
    | nil => simp at heq
    | cons p pre1 =>
      simp only [List.cons_append, List.cons.injEq] at heq
      obtain ⟨hp, heq⟩ := heq
      cases pre1 with
      | nil =>
        simp only [List.nil_append, List.cons.injEq, Event.applyOps.injEq] at heq
        obtain ⟨⟨g1, g2⟩, g3⟩ := heq
        exact ⟨e0, [], g1.symm, hn, by rw [← g2]; exact hc, by rw [← hp]; simp, rest, g3.symm⟩
      | cons p2 pre2 =>
        simp only [List.cons_append, List.cons.injEq] at heq
        obtain ⟨hp2, heq⟩ := heq
        cases hr with
        | false =>
          simp only [writeEvents, Bool.false_eq_true, if_false, List.nil_append] at heq
          obtain ⟨e, pre3, g1, g2, g3, g4, g5⟩ := ih pre2 ops res post heq
          exact ⟨e, p :: p2 :: pre3, g1, g2, g3, by rw [g4]; simp, g5⟩
        | true =>
          simp only [writeEvents, if_true, List.cons_append, List.nil_append] at heq
          cases pre2 with
          | nil => simp at heq
          | cons p3 pre3 =>
            simp only [List.cons_append, List.cons.injEq] at heq
            obtain ⟨e, pre4, g1, g2, g3, g4, g5⟩ := ih pre3 ops res post heq.2
            exact ⟨e, p :: p2 :: p3 :: pre4, g1, g2, g3, by rw [g4]; simp, g5⟩

/-- In a stretch of whole blocks, every checkpoint write comes right after a completed
apply of an entry with that timestamp, and a recorder is configured. -/
theorem Blocks.write_occ {cfg : Config} {hr : Bool} {tr : List Event}
    (h : Blocks cfg hr tr) : ∀ (pre : List Event) (ts : Int) (post : List Event),
      tr = pre ++ Event.write ts :: post →
      hr = true ∧ ∃ pre1 e res, pre = pre1 ++ [Event.applyOps [e] res] ∧
        e.Timestamp = ts ∧ e.Operation ≠ "n" ∧ completes cfg res = true := by
  induction h with
  | nil => intro pre ts post heq; simp at heq
  | control ev rest hc _ ih =>
    intro pre ts post heq
    cases pre with
    | nil =>
      simp only [List.nil_append, List.cons.injEq] at heq
      rw [heq.1] at hc; simp [Event.isControl] at hc
    | cons p pre1 =>
      simp only [List.cons_append, List.cons.injEq] at heq
      obtain ⟨g0, pre2, e, res, g1, g2, g3, g4⟩ := ih pre1 ts post heq.2
      exact ⟨g0, p :: pre2, e, res, by rw [g1]; simp, g2, g3, g4⟩
  | skipped e0 rest hn _ ih =>
    intro pre ts post heq
    cases pre with
    | nil => simp at heq
    | cons p pre1 =>
      simp only [List.cons_append, List.cons.injEq] at heq
      obtain ⟨g0, pre2, e, res, g1, g2, g3, g4⟩ := ih pre1 ts post heq.2
      exact ⟨g0, p :: pre2, e, res, by rw [g1]; simp, g2, g3, g4⟩
  | applied e0 res0 rest hn hc _ ih =>
    intro pre ts post heq
    cases pre with
    | nil => simp at heq
    | cons p pre1 =>
      simp only [List.cons_append, List.cons.injEq] at heq
      obtain ⟨hp, heq⟩ := heq
      cases pre1 with
      | nil => simp at heq
      | cons p2 pre2 =>
        simp only [List.cons_append, List.cons.injEq] at heq
        obtain ⟨hp2, heq⟩ := heq
        cases hr with
        | false =>
          simp only [writeEvents, Bool.false_eq_true, if_false, List.nil_append] at heq
          obtain ⟨g0, pre3, e, res, g1, g2, g3, g4⟩ := ih pre2 ts post heq
          exact ⟨g0, p :: p2 :: pre3, e, res, by rw [g1]; simp, g2, g3, g4⟩
        | true =>
          simp only [writeEvents, if_true, List.cons_append, List.nil_append] at heq
          cases pre2 with
          | nil =>
            simp only [List.nil_append, List.cons.injEq, Event.write.injEq] at heq
            exact ⟨rfl, [p], e0, res0, by rw [← hp2]; simp, heq.1, hn, hc⟩
          | cons p3 pre3 =>
            simp only [List.cons_append, List.cons.injEq] at heq
            obtain ⟨g0, pre4, e, res, g1, g2, g3, g4⟩ := ih pre3 ts post heq.2
            exact ⟨g0, p :: p2 :: p3 :: pre4, e, res, by rw [g1]; simp, g2, g3, g4⟩

/-- In a stretch of whole blocks, a delivered entry that is not a no-op is applied right
away, in a batch of its own, and the apply completes. -/
theorem Blocks.next_occ {cfg : Config} {hr : Bool} {tr : List Event}
    (h : Blocks cfg hr tr) : ∀ (pre : List Event) (e : Oplog) (post : List Event),
      tr = pre ++ Event.next e :: post → e.Operation ≠ "n" →
      ∃ res post1, post = Event.applyOps [e] res :: post1 ∧ completes cfg res = true := by
  induction h with
  | nil => intro pre e post heq; simp at heq
  | control ev rest hc _ ih =>
    intro pre e post heq hne
    cases pre with
    | nil =>
      simp only [List.nil_append, List.cons.injEq] at heq
      rw [heq.1] at hc; simp [Event.isControl] at hc
    | cons p pre1 =>
      simp only [List.cons_append, List.cons.injEq] at heq
      exact ih pre1 e post heq.2 hne
  | skipped e0 rest hn _ ih =>
    intro pre e post heq hne
    cases pre with
    | nil =>
      simp only [List.nil_append, List.cons.injEq, Event.next.injEq] at heq
      rw [heq.1] at hn; exact absurd hn hne
    | cons p pre1 =>
      simp only [List.cons_append, List.cons.injEq] at heq
      exact ih pre1 e post heq.2 hne
  | applied e0 res0 rest hn hc _ ih =>
    intro pre e post heq hne
    cases pre with
    | nil =>
      simp only [List.nil_append, List.cons.injEq, Event.next.injEq] at heq
      obtain ⟨g1, g2⟩ := heq
      subst g1
      exact ⟨res0, _, g2.symm, hc⟩
    | cons p pre1 =>
      simp only [List.cons_append, List.cons.injEq] at heq
      obtain ⟨hp, heq⟩ := heq
      cases pre1 with
      | nil => simp at heq
      | cons p2 pre2 =>
        simp only [List.cons_append, List.cons.injEq] at heq
        obtain ⟨hp2, heq⟩ := heq
        cases hr with
        | false =>
          simp only [writeEvents, Bool.false_eq_true, if_false, List.nil_append] at heq
          exact ih pre2 e post heq hne
        | true =>
          simp only [writeEvents, if_true, List.cons_append, List.nil_append] at heq
          cases pre2 with
          | nil => simp at heq
          | cons p3 pre3 =>
            simp only [List.cons_append, List.cons.injEq] at heq
            exact ih pre3 e post heq.2 hne

theorem occ_in_tail {α : Type} (b pre post : List α) (x y z : α)
    (h : b ++ [y, z] = pre ++ x :: post) :
    (∃ post1, b = pre ++ x :: post1 ∧ post = post1 ++ [y, z]) ∨
    (pre = b ∧ x = y ∧ post = [z]) ∨ (pre = b ++ [y] ∧ x = z ∧ post = []) := by
  induction b generalizing pre with
  | nil =>
    cases pre with
    | nil =>
      simp only [List.nil_append, List.cons.injEq] at h
      exact Or.inr (Or.inl ⟨rfl, h.1.symm, h.2.symm⟩)
    | cons p pre1 =>
      cases pre1 with
      | nil =>
        simp only [List.nil_append, List.cons_append, List.cons.injEq] at h
        obtain ⟨g1, g2, g3⟩ := h
        exact Or.inr (Or.inr ⟨by rw [g1]; simp, g2.symm, g3.symm⟩)
      | cons p2 pre2 => simp at h
  | cons a b ih =>
    cases pre with
    | nil =>
      simp only [List.nil_append, List.cons_append, List.cons.injEq] at h
      exact Or.inl ⟨b, by rw [h.1]; simp, h.2.symm⟩
    | cons p pre1 =>
      simp only [List.cons_append, List.cons.injEq] at h
      obtain ⟨g1, g2⟩ := h
      rcases ih pre1 g2 with ⟨post1, k1, k2⟩ | ⟨k1, k2, k3⟩ | ⟨k1, k2, k3⟩
      · exact Or.inl ⟨post1, by rw [g1, k1]; simp, k2⟩
      · exact Or.inr (Or.inl ⟨by rw [g1, k1], k2, k3⟩)
      · exact Or.inr (Or.inr ⟨by rw [g1, k1]; simp, k2, k3⟩)

/-- Every apply of a run: it is the apply of the entry delivered just before it, which is
not a no-op; either it completes and the checkpoint write, if any, comes right after, or
it does not complete, nothing follows it and the run returned its error. -/
theorem RunTrace.applyOps_at {cfg : Config} {hr : Bool} {tr : List Event} {o : Outcome}
    (h : RunTrace cfg hr tr o) (pre : List Event) (ops : List Oplog) (res : RunResult)
    (post : List Event) (heq : tr = pre ++ Event.applyOps ops res :: post) :
    ∃ e pre1, ops = [e] ∧ e.Operation ≠ "n" ∧ pre = pre1 ++ [Event.next e] ∧
      ((completes cfg res = true ∧ ∃ post1, post = writeEvents hr e ++ post1) ∨
       (completes cfg res = false ∧ post = [] ∧ o = .returned (some (abortError res)))) := by
  rcases h with h | ⟨b, e0, res0, h1, h2, h3, h4, h5⟩
  · obtain ⟨e, pre1, g1, g2, g3, g4, g5⟩ := h.applyOps_occ pre ops res post heq
    exact ⟨e, pre1, g1, g2, g4, Or.inl ⟨g3, g5⟩⟩
  · rw [h1] at heq
    rcases occ_in_tail b pre post _ _ _ heq with ⟨post1, k1, k2⟩ | ⟨_, k2, _⟩ | ⟨k1, k2, k3⟩
    · obtain ⟨e, pre1, g1, g2, g3, g4, post2, g5⟩ := h2.applyOps_occ pre ops res post1 k1
      exact ⟨e, pre1, g1, g2, g4, Or.inl ⟨g3,
        post2 ++ [Event.next e0, Event.applyOps [e0] res0], by rw [k2, g5]; simp⟩⟩
    · simp at k2
    · simp only [Event.applyOps.injEq] at k2
      obtain ⟨k4, k5⟩ := k2
      subst k4 k5
      exact ⟨e0, b, rfl, h3, k1, Or.inr ⟨h4, k3, h5⟩⟩

/-- Every checkpoint write of a run comes right after a completed apply of an entry with
that timestamp. -/
theorem RunTrace.write_at {cfg : Config} {hr : Bool} {tr : List Event} {o : Outcome}
    (h : RunTrace cfg hr tr o) (pre : List Event) (ts : Int) (post : List Event)
    (heq : tr = pre ++ Event.write ts :: post) :
    hr = true ∧ ∃ pre1 e res, pre = pre1 ++ [Event.applyOps [e] res] ∧
      e.Timestamp = ts ∧ e.Operation ≠ "n" ∧ completes cfg res = true := by
  rcases h with h | ⟨b, e0, res0, h1, h2, h3, h4, h5⟩
  · exact h.write_occ pre ts post heq
  · rw [h1] at heq
    rcases occ_in_tail b pre post _ _ _ heq with ⟨post1, k1, k2⟩ | ⟨_, k2, _⟩ | ⟨k1, k2, k3⟩
    · exact h2.write_occ pre ts post1 k1
    · simp at k2
    · simp at k2

/-- Every delivered entry of a run that is not a no-op is applied right away, in a batch
of its own. -/
theorem RunTrace.next_at {cfg : Config} {hr : Bool} {tr : List Event} {o : Outcome}
    (h : RunTrace cfg hr tr o) (pre : List Event) (e : Oplog) (post : List Event)
    (heq : tr = pre ++ Event.next e :: post) (hne : e.Operation ≠ "n") :
    ∃ res post1, post = Event.applyOps [e] res :: post1 := by
  rcases h with h | ⟨b, e0, res0, h1, h2, h3, h4, h5⟩
  · obtain ⟨res, post1, g1, _⟩ := h.next_occ pre e post heq hne
    exact ⟨res, post1, g1⟩
  · rw [h1] at heq
    rcases occ_in_tail b pre post _ _ _ heq with ⟨post1, k1, k2⟩ | ⟨_, k2, k3⟩ | ⟨k1, k2, k3⟩
    · obtain ⟨res, post2, g1, _⟩ := h2.next_occ pre e post1 k1 hne
      exact ⟨res, post2 ++ [Event.next e0, Event.applyOps [e0] res0], by rw [k2, g1]; simp⟩
    · simp only [Event.next.injEq] at k2
      subst k2
      exact ⟨res0, [], k3⟩
    · simp at k2

/-! ## Projections of the trace of a run -/

theorem appliedBatches_append (a b : List Event) :
    appliedBatches (a ++ b) = appliedBatches a ++ appliedBatches b := by
  simp [appliedBatches, List.filterMap_append]

theorem writes_append (a b : List Event) : writes (a ++ b) = writes a ++ writes b := by
  simp [writes, List.filterMap_append]

theorem completedTimestamps_append (cfg : Config) (a b : List Event) :
    completedTimestamps cfg (a ++ b) =
      completedTimestamps cfg a ++ completedTimestamps cfg b := by
  simp [completedTimestamps, List.filterMap_append]

theorem Blocks.appliedBatches_eq {cfg : Config} {hr : Bool} {tr : List Event}
    (h : Blocks cfg hr tr) :
    appliedBatches tr =
      ((delivered tr).filter (fun e => decide (e.Operation ≠ "n"))).map (fun e => [e]) := by
  induction h with
  | nil => simp [appliedBatches, delivered]
  | control ev rest hc _ ih =>
    cases ev <;> simp [Event.isControl] at hc <;>
      simpa [appliedBatches, delivered, List.filterMap_cons] using ih
  | skipped e rest hn _ ih =>
    simpa [appliedBatches, delivered, List.filterMap_cons, hn] using ih
  | applied e res rest hn hc _ ih =>
    cases hr <;>
      simpa [appliedBatches, delivered, List.filterMap_cons, hn, writeEvents] using ih

theorem Blocks.writes_eq {cfg : Config} {hr : Bool} {tr : List Event}
    (h : Blocks cfg hr tr) :
    writes tr = if hr = true then completedTimestamps cfg tr else [] := by
  induction h with
  | nil => simp [writes, completedTimestamps]
  | control ev rest hc _ ih =>
    cases ev <;> simp [Event.isControl] at hc <;>
      simpa [writes, completedTimestamps, List.filterMap_cons] using ih
  | skipped e rest hn _ ih =>
    simpa [writes, completedTimestamps, List.filterMap_cons] using ih
  | applied e res rest hn hc _ ih =>
    cases hr
    · simpa [writes, completedTimestamps, List.filterMap_cons, writeEvents] using ih
    · simp only [if_true] at ih
      simp [writes, completedTimestamps, List.filterMap_cons, writeEvents, hc] at ih ⊢
      exact ih

theorem RunTrace.applied_eq {cfg : Config} {hr : Bool} {tr : List Event} {o : Outcome}
    (h : RunTrace cfg hr tr o) :
    appliedBatches tr =
      ((delivered tr).filter (fun e => decide (e.Operation ≠ "n"))).map (fun e => [e]) := by
  rcases h with h | ⟨b, e0, res0, h1, h2, h3, h4, h5⟩
  · exact h.appliedBatches_eq
  · rw [h1, appliedBatches_append, delivered_append, h2.appliedBatches_eq]
    simp [appliedBatches, delivered, List.filterMap_cons, h3]

theorem RunTrace.written_eq {cfg : Config} {hr : Bool} {tr : List Event} {o : Outcome}
    (h : RunTrace cfg hr tr o) :
    writes tr = if hr = true then completedTimestamps cfg tr else [] := by
  rcases h with h | ⟨b, e0, res0, h1, h2, h3, h4, h5⟩
  · exact h.writes_eq
  · rw [h1, writes_append, completedTimestamps_append, h2.writes_eq]
    cases hr <;> simp [writes, completedTimestamps, List.filterMap_cons, h4]

theorem delivered_of_blocks_control {σ δ : Type} (c : Source)
    (tsRecorder : Option (TimestampRecorder σ)) (s0 : σ) (d0 : δ) (headTs : Int) :
    delivered (startState c tsRecorder s0 d0 headTs : State σ δ).trace = [] := by
  cases tsRecorder <;> simp [startState, readEvents, delivered, List.filterMap_cons]

/-- The entries a run consumed are a prefix of what the catch-up cursor, if it was opened,
and then the tailing cursor had to deliver. -/
theorem SyncOplog_delivered {σ δ : Type} (env : Env) (c : Source) (cfg : Config)
    (dst : Destination δ) (tsRecorder : Option (TimestampRecorder σ)) (s0 : σ) (d0 : δ) :
    ∃ q, delivered (SyncOplog env c cfg dst tsRecorder s0 d0).state.trace <+:
      (if resolveStart env (readCheckpoint tsRecorder s0).1 > 0
        then (c.Find (restoreQueryOf env c tsRecorder s0)).1 else []) ++
      ((c.Tail q).map (·.entries)).flatten := by
  cases hh : c.head with
  | error err =>
    exact ⟨{ ts := .gt 0, ns := none }, by simp [SyncOplog, hh, delivered]⟩
  | ok headTs =>
    by_cases hdb : (dbnamesOf c).length > 0
    · obtain ⟨evs, h1, _, _, h4, h5⟩ := catchUp_trace c cfg dst tsRecorder
        (resolveStart env (readCheckpoint tsRecorder s0).1)
        (restoreQueryOf env c tsRecorder s0) (startState c tsRecorder s0 d0 headTs)
      have hst := delivered_of_blocks_control c tsRecorder s0 d0 headTs
      refine ⟨(catchUp c cfg dst tsRecorder
            (resolveStart env (readCheckpoint tsRecorder s0).1)
            (restoreQueryOf env c tsRecorder s0)
            (startState c tsRecorder s0 d0 headTs)).1.tailQuery, ?_⟩
      simp only [SyncOplog, hh, hdb, if_true]
      split
      · rename_i err hr
        simp only []
        rw [h1, delivered_append, hst, List.nil_append]
        exact h4.trans (List.prefix_append _ _)
      · rename_i hr
        obtain ⟨evs2, g1, _, g3⟩ := tailing_trace env c cfg dst tsRecorder
          (catchUp c cfg dst tsRecorder
            (resolveStart env (readCheckpoint tsRecorder s0).1)
            (restoreQueryOf env c tsRecorder s0)
            (startState c tsRecorder s0 d0 headTs)).1
        rw [g1, h1, delivered_append, delivered_append, hst, List.nil_append, h5 hr]
        exact (List.prefix_append_right_inj _).mpr g3
    · exact ⟨{ ts := .gt 0, ns := none }, by
        simp only [SyncOplog, hh, hdb, if_false]
        rw [delivered_of_blocks_control]
        exact List.nil_prefix⟩

/-! ## Claims on the entry pipeline -/

theorem flatten_map_singleton {α : Type} (l : List α) :
    (l.map (fun e => [e])).flatten = l := by
  induction l with
  | nil => rfl
  | cons a l ih => simp [ih]

/-- C5. In every run, for both values of `IgnoreApplyError` and in both phases: an apply
call that returns a transport error is the last event of the run, so no checkpoint write
and no later apply follows it, and `SyncOplog` returns the error of line 208 or 254. -/
theorem C5_transport_error_is_fatal {σ δ : Type} (env : Env) (c : Source) (cfg : Config)
    (dst : Destination δ) (tsRecorder : Option (TimestampRecorder σ)) (s0 : σ) (d0 : δ)
    (pre : List Event) (ops : List Oplog) (err : Err) (post : List Event)
    (h : (SyncOplog env c cfg dst tsRecorder s0 d0).state.trace =
      pre ++ Event.applyOps ops (.failed err) :: post) :
    post = [] ∧
    (SyncOplog env c cfg dst tsRecorder s0 d0).outcome =
      .returned (some (.applyingOps err)) ∧
    (∀ (body : State σ δ → Oplog → State σ δ × Option SyncError),
      (body = restoreEntry cfg dst tsRecorder ∨ body = tailEntry cfg dst tsRecorder) →
      ∀ (st : State σ δ) (e : Oplog) (rest : List Oplog), e.Operation ≠ "n" →
        (dst.Run [e] st.dst).1 = .failed err →
        (runLoop body st (e :: rest)).2 = some (.applyingOps err) ∧
        (runLoop body st (e :: rest)).1.trace =
          st.trace ++ [Event.next e, Event.applyOps [e] (.failed err)] ∧
        (runLoop body st (e :: rest)).1.recorder = st.recorder) := by
  have hrun := SyncOplog_trace env c cfg dst tsRecorder s0 d0
  obtain ⟨e, pre1, _, _, _, h5⟩ := hrun.applyOps_at pre ops (.failed err) post h
  refine ⟨?_, ?_, ?_⟩
  · rcases h5 with ⟨h6, _⟩ | ⟨_, h7, _⟩
    · simp [completes] at h6
    · exact h7
  · rcases h5 with ⟨h6, _⟩ | ⟨_, _, h8⟩
    · simp [completes] at h6
    · simpa [abortError] using h8
  · intro body hbody st e rest hne hres
    rcases hbody with rfl | rfl
    · simp [runLoop, restoreEntry, applyEntry, hne, hres]
    · simp [runLoop, tailEntry, applyEntry, hne, hres]

/-! ## The recorder's `Write` does not steer the run -/

theorem applyEntry_forget {σ δ : Type} (cfg : Config) (dst : Destination δ)
    (tsRecorder : Option (TimestampRecorder σ)) (s0 : σ) (st : State σ δ) (e : Oplog) :
    ((applyEntry cfg dst tsRecorder st e).1.forget, (applyEntry cfg dst tsRecorder st e).2) =
      applyEntry cfg dst (blanked tsRecorder s0) st.forget e := by
  by_cases hn : e.Operation = "n"
  · simp [applyEntry, hn]
  · cases hres : (dst.Run [e] st.dst).1 with
    | failed err => simp [applyEntry, hn, State.forget, hres]
    | response r =>
      by_cases hc : r.Ok = false ∧ cfg.IgnoreApplyError = false
      · simp [applyEntry, hn, State.forget, hres, hc]
      · cases tsRecorder with
        | none => simp [applyEntry, hn, State.forget, hres, hc, blanked]
        | some r => simp [applyEntry, hn, State.forget, hres, hc, blanked]

theorem runLoop_forget {σ δ : Type}
    (body : State σ δ → Oplog → State σ δ × Option SyncError)
    (body2 : State Unit δ → Oplog → State Unit δ × Option SyncError)
    (hb : ∀ st e, ((body st e).1.forget, (body st e).2) = body2 st.forget e)
    (es : List Oplog) (st : State σ δ) :
    ((runLoop body st es).1.forget, (runLoop body st es).2) = runLoop body2 st.forget es := by
  induction es generalizing st with
  | nil => simp [runLoop]
  | cons e rest ih =>
    have h := hb { st with trace := st.trace ++ [Event.next e] } e
    have h1 : (body2 { st.forget with trace := st.forget.trace ++ [Event.next e] } e) =
        ((body { st with trace := st.trace ++ [Event.next e] } e).1.forget,
          (body { st with trace := st.trace ++ [Event.next e] } e).2) := by
      rw [h]; rfl
    cases hr : (body { st with trace := st.trace ++ [Event.next e] } e).2 with
    | some err =>
      rw [runLoop_cons_some body st e rest err hr]
      rw [runLoop_cons_some body2 st.forget e rest err (by rw [h1]; exact hr)]
      rw [h1]
    | none =>
      rw [runLoop_cons_none body st e rest hr]
      rw [runLoop_cons_none body2 st.forget e rest (by rw [h1]; exact hr)]
      rw [h1]
      exact ih _

theorem restoreEntry_forget {σ δ : Type} (cfg : Config) (dst : Destination δ)
    (tsRecorder : Option (TimestampRecorder σ)) (s0 : σ) (st : State σ δ) (e : Oplog) :
    ((restoreEntry cfg dst tsRecorder st e).1.forget,
      (restoreEntry cfg dst tsRecorder st e).2) =
      restoreEntry cfg dst (blanked tsRecorder s0) st.forget e :=
  applyEntry_forget cfg dst tsRecorder s0 _ e

theorem tailEntry_forget {σ δ : Type} (cfg : Config) (dst : Destination δ)
    (tsRecorder : Option (TimestampRecorder σ)) (s0 : σ) (st : State σ δ) (e : Oplog) :
    ((tailEntry cfg dst tsRecorder st e).1.forget, (tailEntry cfg dst tsRecorder st e).2) =
      tailEntry cfg dst (blanked tsRecorder s0) st.forget e :=
  applyEntry_forget cfg dst tsRecorder s0 _ e

theorem tailLoop_forget {σ δ : Type} (env : Env) (cfg : Config) (dst : Destination δ)
    (tsRecorder : Option (TimestampRecorder σ)) (s0 : σ) (rounds : List TailRound)
    (st : State σ δ) :
    (tailLoop env cfg dst tsRecorder rounds st).state.forget =
      (tailLoop env cfg dst (blanked tsRecorder s0) rounds st.forget).state ∧
    (tailLoop env cfg dst tsRecorder rounds st).outcome =
      (tailLoop env cfg dst (blanked tsRecorder s0) rounds st.forget).outcome := by
  induction rounds generalizing st with
  | nil => simp [tailLoop]
  | cons round rounds ih =>
    have hp := runLoop_forget (tailEntry cfg dst tsRecorder)
      (tailEntry cfg dst (blanked tsRecorder s0)) (tailEntry_forget cfg dst tsRecorder s0)
      round.entries st
    have h1 : (runLoop (tailEntry cfg dst (blanked tsRecorder s0)) st.forget round.entries).1 =
        (runLoop (tailEntry cfg dst tsRecorder) st round.entries).1.forget := by
      rw [← hp]
    have h2 : (runLoop (tailEntry cfg dst (blanked tsRecorder s0)) st.forget round.entries).2 =
        (runLoop (tailEntry cfg dst tsRecorder) st round.entries).2 := by
      rw [← hp]
    cases hr : (runLoop (tailEntry cfg dst tsRecorder) st round.entries).2 with
    | some err =>
      rw [tailLoop_cons_abort env cfg dst tsRecorder round rounds st err hr,
        tailLoop_cons_abort env cfg dst _ round rounds st.forget err (by rw [h2]; exact hr)]
      exact ⟨h1.symm, rfl⟩
    | none =>
      have hr2 := h2.trans hr
      cases he : round.err with
      | some err =>
        rw [tailLoop_cons_err env cfg dst tsRecorder round rounds st err hr he,
          tailLoop_cons_err env cfg dst _ round rounds st.forget err hr2 he]
        exact ⟨h1.symm, rfl⟩
      | none =>
        cases ht : round.timeout with
        | true =>
          cases hf : env.fast_stop with
          | true =>
            rw [tailLoop_cons_stop env cfg dst tsRecorder round rounds st hr he ht hf,
              tailLoop_cons_stop env cfg dst _ round rounds st.forget hr2 he ht hf]
            exact ⟨h1.symm, rfl⟩
          | false =>
            rw [tailLoop_cons_timeout env cfg dst tsRecorder round rounds st hr he ht hf,
              tailLoop_cons_timeout env cfg dst _ round rounds st.forget hr2 he ht hf, h1]
            exact ih _
        | false =>
          rw [tailLoop_cons_reopen env cfg dst tsRecorder round rounds st hr he ht,
            tailLoop_cons_reopen env cfg dst _ round rounds st.forget hr2 he ht, h1]
          exact ih _

theorem catchUp_forget {σ δ : Type} (c : Source) (cfg : Config) (dst : Destination δ)
    (tsRecorder : Option (TimestampRecorder σ)) (s0 : σ) (since : Int) (q : Query)
    (st : State σ δ) :
    (catchUp c cfg dst tsRecorder since q st).1.forget =
      (catchUp c cfg dst (blanked tsRecorder s0) since q st.forget).1 ∧
    (catchUp c cfg dst tsRecorder since q st).2 =
      (catchUp c cfg dst (blanked tsRecorder s0) since q st.forget).2 := by
  by_cases hs : since > 0
  · have hp := runLoop_forget (restoreEntry cfg dst tsRecorder)
      (restoreEntry cfg dst (blanked tsRecorder s0)) (restoreEntry_forget cfg dst tsRecorder s0)
      (c.Find q).1 { st with trace := st.trace ++ [Event.find q] }
    have h1 : (runLoop (restoreEntry cfg dst (blanked tsRecorder s0))
        { st.forget with trace := st.forget.trace ++ [Event.find q] } (c.Find q).1).1 =
        (runLoop (restoreEntry cfg dst tsRecorder)
          { st with trace := st.trace ++ [Event.find q] } (c.Find q).1).1.forget :=
      (congrArg Prod.fst hp).symm
    have h2 : (runLoop (restoreEntry cfg dst (blanked tsRecorder s0))
        { st.forget with trace := st.forget.trace ++ [Event.find q] } (c.Find q).1).2 =
        (runLoop (restoreEntry cfg dst tsRecorder)
          { st with trace := st.trace ++ [Event.find q] } (c.Find q).1).2 :=
      (congrArg Prod.snd hp).symm
    simp only [catchUp, hs, if_true, h1, h2]
    cases (runLoop (restoreEntry cfg dst tsRecorder)
          { st with trace := st.trace ++ [Event.find q] } (c.Find q).1).2 with
    | some err => exact ⟨rfl, rfl⟩
    | none =>
      cases (c.Find q).2 with
      | some err => exact ⟨rfl, rfl⟩
      | none => exact ⟨rfl, rfl⟩
  · simp [catchUp, hs]

theorem readCheckpoint_blanked {σ : Type} (tsRecorder : Option (TimestampRecorder σ))
    (s0 : σ) : (readCheckpoint (blanked tsRecorder s0) ()).1 = (readCheckpoint tsRecorder s0).1 := by
  cases tsRecorder <;> simp [readCheckpoint, blanked, blankRecorder]

theorem startState_forget {σ δ : Type} (c : Source) (tsRecorder : Option (TimestampRecorder σ))
    (s0 : σ) (d0 : δ) (headTs : Int) :
    (startState c tsRecorder s0 d0 headTs).forget =
      startState c (blanked tsRecorder s0) () d0 headTs := by
  cases tsRecorder <;> simp [startState, State.forget, blanked, readEvents]

/-- A run and the run with the stateless stand-in of its recorder have the same trace,
destination state and outcome. -/
theorem SyncOplog_forget {σ δ : Type} (env : Env) (c : Source) (cfg : Config)
    (dst : Destination δ) (tsRecorder : Option (TimestampRecorder σ)) (s0 : σ) (d0 : δ) :
    (SyncOplog env c cfg dst tsRecorder s0 d0).state.forget =
      (SyncOplog env c cfg dst (blanked tsRecorder s0) () d0).state ∧
    (SyncOplog env c cfg dst tsRecorder s0 d0).outcome =
      (SyncOplog env c cfg dst (blanked tsRecorder s0) () d0).outcome := by
  cases hh : c.head with
  | error err => simp [SyncOplog, hh, State.forget]
  | ok headTs =>
    by_cases hdb : (dbnamesOf c).length > 0
    · have hq : restoreQueryOf env c (blanked tsRecorder s0) () =
          restoreQueryOf env c tsRecorder s0 := by
        simp [restoreQueryOf, readCheckpoint_blanked]
      obtain ⟨h1, h2⟩ := catchUp_forget c cfg dst tsRecorder s0
        (resolveStart env (readCheckpoint tsRecorder s0).1)
        (restoreQueryOf env c tsRecorder s0) (startState c tsRecorder s0 d0 headTs)
      rw [startState_forget] at h1 h2
      simp only [SyncOplog, hh, hdb, if_true, readCheckpoint_blanked, hq, ← h2]
      cases hr : (catchUp c cfg dst tsRecorder
          (resolveStart env (readCheckpoint tsRecorder s0).1)
          (restoreQueryOf env c tsRecorder s0) (startState c tsRecorder s0 d0 headTs)).2 with
      | some err => exact ⟨h1, rfl⟩
      | none =>
        simp only [tailing, ← h1]
        exact tailLoop_forget env cfg dst tsRecorder s0 _ _
    · simp only [SyncOplog, hh, hdb, if_false, and_true]
      cases tsRecorder <;> simp [startState, State.forget, blanked, readEvents]

/-- The policy test of lines 212 to 219 and 258 to 265, reached when `Run` returned nil
and the decoded response has `Ok = false`. Under `IgnoreApplyError` the loop of either
phase goes on with the next entry from the state in which the entry's timestamp has been
written to the recorder, and in the trace of a run the checkpoint write of that entry
comes right after the apply. Without it the loop of either phase returns the error of line
217 or 263 with the recorder untouched, and in the trace of a run that apply is the last
event. -/
theorem policy_when_run_returns_nil {σ δ : Type} (env : Env) (c : Source) (cfg : Config)
    (dst : Destination δ) (tsRecorder : Option (TimestampRecorder σ)) (s0 : σ) (d0 : δ) :
    (∀ (body : State σ δ → Oplog → State σ δ × Option SyncError),
      (body = restoreEntry cfg dst tsRecorder ∨ body = tailEntry cfg dst tsRecorder) →
      ∀ (st : State σ δ) (e : Oplog) (rest : List Oplog) (m : String), e.Operation ≠ "n" →
        (dst.Run [e] st.dst).1 = .response { Ok := false, ErrMsg := m } →
        (cfg.IgnoreApplyError = true →
          ∃ q, runLoop body st (e :: rest) = runLoop body
            { trace := st.trace ++ Event.next e ::
                Event.applyOps [e] (.response { Ok := false, ErrMsg := m }) ::
                writeEvents tsRecorder.isSome e,
              recorder := written tsRecorder e.Timestamp st.recorder,
              dst := (dst.Run [e] st.dst).2, opCount := st.opCount + 1, tailQuery := q }
            rest) ∧
        (cfg.IgnoreApplyError = false →
          (runLoop body st (e :: rest)).2 = some (.serverError m) ∧
          (runLoop body st (e :: rest)).1.trace = st.trace ++
            [Event.next e, Event.applyOps [e] (.response { Ok := false, ErrMsg := m })] ∧
          (runLoop body st (e :: rest)).1.recorder = st.recorder)) ∧
    (∀ (pre : List Event) (ops : List Oplog) (m : String) (post : List Event),
      (SyncOplog env c cfg dst tsRecorder s0 d0).state.trace =
        pre ++ Event.applyOps ops (.response { Ok := false, ErrMsg := m }) :: post →
      (cfg.IgnoreApplyError = true →
        ∃ e post1, ops = [e] ∧ post = writeEvents tsRecorder.isSome e ++ post1) ∧
      (cfg.IgnoreApplyError = false →
        post = [] ∧ (SyncOplog env c cfg dst tsRecorder s0 d0).outcome =
          .returned (some (.serverError m)))) := by
  refine ⟨?_, ?_⟩
  · intro body hbody st e rest m hne hres
    refine ⟨?_, ?_⟩
    · intro hi
      rcases hbody with rfl | rfl
      · refine ⟨{ ts := .gte e.Timestamp, ns := none }, ?_⟩
        cases tsRecorder <;>
          simp [runLoop, restoreEntry, applyEntry, hne, hres, hi, writeEvents, written]
      · refine ⟨st.tailQuery, ?_⟩
        cases tsRecorder <;>
          simp [runLoop, tailEntry, applyEntry, hne, hres, hi, writeEvents, written]
    · intro hi
      rcases hbody with rfl | rfl
      · simp [runLoop, restoreEntry, applyEntry, hne, hres, hi]
      · simp [runLoop, tailEntry, applyEntry, hne, hres, hi]
  · intro pre ops m post h
    have hrun := SyncOplog_trace env c cfg dst tsRecorder s0 d0
    obtain ⟨e, pre1, h1, _, _, h5⟩ := hrun.applyOps_at pre ops _ post h
    refine ⟨?_, ?_⟩
    · intro hi
      rcases h5 with ⟨_, post1, h7⟩ | ⟨h6, _, _⟩
      · exact ⟨e, post1, h1, h7⟩
      · simp [completes, hi] at h6
    · intro hi
      rcases h5 with ⟨h6, _⟩ | ⟨_, h7, h8⟩
      · simp [completes, hi] at h6
      · exact ⟨h7, by simpa [abortError] using h8⟩

/-! ## The recorder's state is the result of the recorded calls of `Write` -/

theorem replayWrites_snoc {σ : Type} (r : TimestampRecorder σ) (tss : List Int) (ts : Int)
    (s : σ) : replayWrites r (tss ++ [ts]) s = (r.Write ts (replayWrites r tss s)).2 := by
  simp [replayWrites, List.foldl_append]

theorem applyEntry_recorder {σ δ : Type} (cfg : Config) (dst : Destination δ)
    (r : TimestampRecorder σ) (s1 : σ) (st : State σ δ) (e : Oplog)
    (h : st.recorder = replayWrites r (writes st.trace) s1) :
    (applyEntry cfg dst (some r) st e).1.recorder =
      replayWrites r (writes (applyEntry cfg dst (some r) st e).1.trace) s1 := by
  have hw : ∀ res, writes (st.trace ++ [Event.applyOps [e] res]) = writes st.trace := by
    intro res; simp [writes, List.filterMap_append]
  have hw2 : ∀ res, writes (st.trace ++ [Event.applyOps [e] res] ++
      [Event.write e.Timestamp]) = writes st.trace ++ [e.Timestamp] := by
    intro res; simp [writes, List.filterMap_append]
  by_cases hn : e.Operation = "n"
  · simpa [applyEntry, hn] using h
  · cases hres : (dst.Run [e] st.dst).1 with
    | failed err =>
      simp only [applyEntry, hn, if_false, hres]
      rw [hw]; exact h
    | response resp =>
      by_cases hc : resp.Ok = false ∧ cfg.IgnoreApplyError = false
      · simp only [applyEntry, hn, if_false, hres, hc, and_self, if_true]
        rw [hw]; exact h
      · simp only [applyEntry, hn, if_false, hres, hc]
        rw [hw2, replayWrites_snoc, ← h]

theorem runLoop_recorder {σ δ : Type} (cfg : Config) (dst : Destination δ)
    (r : TimestampRecorder σ) (s1 : σ)
    (body : State σ δ → Oplog → State σ δ × Option SyncError)
    (hb : ∀ st e, ∃ q, body st e = applyEntry cfg dst (some r) { st with tailQuery := q } e)
    (es : List Oplog) (st : State σ δ)
    (h : st.recorder = replayWrites r (writes st.trace) s1) :
    (runLoop body st es).1.recorder =
      replayWrites r (writes (runLoop body st es).1.trace) s1 := by
  induction es generalizing st with
  | nil => simpa [runLoop] using h
  | cons e rest ih =>
    obtain ⟨q, hq⟩ := hb { st with trace := st.trace ++ [Event.next e] } e
    have hstep : (body { st with trace := st.trace ++ [Event.next e] } e).1.recorder =
        replayWrites r
          (writes (body { st with trace := st.trace ++ [Event.next e] } e).1.trace) s1 := by
      rw [hq]
      apply applyEntry_recorder
      simpa [writes, List.filterMap_append] using h
    cases hr : (body { st with trace := st.trace ++ [Event.next e] } e).2 with
    | some err =>
      rw [runLoop_cons_some body st e rest err hr]
      exact hstep
    | none =>
      rw [runLoop_cons_none body st e rest hr]
      exact ih _ hstep

theorem tailLoop_recorder {σ δ : Type} (env : Env) (cfg : Config) (dst : Destination δ)
    (r : TimestampRecorder σ) (s1 : σ) (rounds : List TailRound) (st : State σ δ)
    (h : st.recorder = replayWrites r (writes st.trace) s1) :
    (tailLoop env cfg dst (some r) rounds st).state.recorder =
      replayWrites r (writes (tailLoop env cfg dst (some r) rounds st).state.trace) s1 := by
  induction rounds generalizing st with
  | nil => simpa [tailLoop] using h
  | cons round rounds ih =>
    have hk := runLoop_recorder cfg dst r s1 (tailEntry cfg dst (some r))
      (tailEntry_body cfg dst (some r)) round.entries st h
    cases hr : (runLoop (tailEntry cfg dst (some r)) st round.entries).2 with
    | some err =>
      rw [tailLoop_cons_abort env cfg dst (some r) round rounds st err hr]
      exact hk
    | none =>
      cases he : round.err with
      | some err =>
        rw [tailLoop_cons_err env cfg dst (some r) round rounds st err hr he]
        exact hk
      | none =>
        cases ht : round.timeout with
        | true =>
          cases hf : env.fast_stop with
          | true =>
            rw [tailLoop_cons_stop env cfg dst (some r) round rounds st hr he ht hf]
            exact hk
          | false =>
            rw [tailLoop_cons_timeout env cfg dst (some r) round rounds st hr he ht hf]
            exact ih _ hk
        | false =>
          rw [tailLoop_cons_reopen env cfg dst (some r) round rounds st hr he ht]
          apply ih
          simpa [writes, List.filterMap_append] using hk

theorem catchUp_recorder {σ δ : Type} (c : Source) (cfg : Config) (dst : Destination δ)
    (r : TimestampRecorder σ) (s1 : σ) (since : Int) (q : Query) (st : State σ δ)
    (h : st.recorder = replayWrites r (writes st.trace) s1) :
    (catchUp c cfg dst (some r) since q st).1.recorder =
      replayWrites r (writes (catchUp c cfg dst (some r) since q st).1.trace) s1 := by
  by_cases hs : since > 0
  · have hk := runLoop_recorder cfg dst r s1 (restoreEntry cfg dst (some r))
      (restoreEntry_body cfg dst (some r)) (c.Find q).1
      { st with trace := st.trace ++ [Event.find q] }
      (by simpa [writes, List.filterMap_append] using h)
    simp only [catchUp, hs, if_true]
    split <;> [skip; split] <;> exact hk
  · simpa [catchUp, hs] using h

/-- At the end of a run with a recorder, the state of the recorder is the state its
`Read` left, if the run came to call it, with `Write` called once for each value of the
trace, in order. -/
theorem SyncOplog_recorder {σ δ : Type} (env : Env) (c : Source) (cfg : Config)
    (dst : Destination δ) (r : TimestampRecorder σ) (s0 : σ) (d0 : δ) :
    (SyncOplog env c cfg dst (some r) s0 d0).state.recorder =
      replayWrites r (writes (SyncOplog env c cfg dst (some r) s0 d0).state.trace)
        (match c.head with
          | .error _ => s0
          | .ok _ => (r.Read s0).2) := by
  cases hh : c.head with
  | error err => simp [SyncOplog, hh, writes, replayWrites]
  | ok headTs =>
    simp only []
    have hst : (startState c (some r) s0 d0 headTs : State σ δ).recorder =
        replayWrites r (writes (startState c (some r) s0 d0 headTs : State σ δ).trace)
          (r.Read s0).2 := by
      simp [startState, readEvents, readCheckpoint, writes, replayWrites]
    by_cases hdb : (dbnamesOf c).length > 0
    · have hcu := catchUp_recorder c cfg dst r (r.Read s0).2
        (resolveStart env (readCheckpoint (some r) s0).1)
        (restoreQueryOf env c (some r) s0) (startState c (some r) s0 d0 headTs) hst
      simp only [SyncOplog, hh, hdb, if_true]
      split
      · exact hcu
      · simp only [tailing]
        apply tailLoop_recorder
        simpa [writes, List.filterMap_append] using hcu
    · simp only [SyncOplog, hh, hdb, if_false]
      simpa [startState] using hst

/-! ## The destination's state is the result of the recorded calls of `Run` -/

theorem resultsOf_append {δ : Type} (dst : Destination δ) (a b : List (List Oplog)) (d : δ) :
    resultsOf dst (a ++ b) d = resultsOf dst a d ++ resultsOf dst b (replayRuns dst a d) := by
  induction a generalizing d with
  | nil => simp [resultsOf, replayRuns]
  | cons ops rest ih =>
    show (dst.Run ops d).1 :: resultsOf dst (rest ++ b) (dst.Run ops d).2 = _
    rw [ih]
    rfl

theorem RunsReplayed.snoc_other {δ : Type} {dst : Destination δ} {d0 : δ} {tr : List Event}
    {d : δ} (h : RunsReplayed dst d0 tr d) (ev : Event)
    (hev : ∀ ops res, ev ≠ Event.applyOps ops res) : RunsReplayed dst d0 (tr ++ [ev]) d := by
  have h1 : appliedBatches (tr ++ [ev]) = appliedBatches tr := by
    cases ev <;> simp [appliedBatches, List.filterMap_append] at hev ⊢
  have h2 : appliedResults (tr ++ [ev]) = appliedResults tr := by
    cases ev <;> simp [appliedResults, List.filterMap_append] at hev ⊢
  simp only [RunsReplayed, h1, h2]
  exact h

theorem RunsReplayed.snoc_apply {δ : Type} {dst : Destination δ} {d0 : δ} {tr : List Event}
    {d : δ} (h : RunsReplayed dst d0 tr d) (ops : List Oplog) :
    RunsReplayed dst d0 (tr ++ [Event.applyOps ops (dst.Run ops d).1]) (dst.Run ops d).2 := by
  obtain ⟨h1, h2⟩ := h
  have g1 : appliedBatches (tr ++ [Event.applyOps ops (dst.Run ops d).1]) =
      appliedBatches tr ++ [ops] := by
    simp [appliedBatches, List.filterMap_append]
  have g2 : appliedResults (tr ++ [Event.applyOps ops (dst.Run ops d).1]) =
      appliedResults tr ++ [(dst.Run ops d).1] := by
    simp [appliedResults, List.filterMap_append]
  refine ⟨?_, ?_⟩
  · rw [g1, h1]
    simp [replayRuns, List.foldl_append]
  · rw [g1, g2, resultsOf_append, h2, ← h1]
    simp [resultsOf]

theorem applyEntry_runs {σ δ : Type} (cfg : Config) (dst : Destination δ)
    (tsRecorder : Option (TimestampRecorder σ)) (d0 : δ) (st : State σ δ) (e : Oplog)
    (h : RunsReplayed dst d0 st.trace st.dst) :
    RunsReplayed dst d0 (applyEntry cfg dst tsRecorder st e).1.trace
      (applyEntry cfg dst tsRecorder st e).1.dst := by
  have ha := h.snoc_apply [e]
  by_cases hn : e.Operation = "n"
  · simpa [applyEntry, hn] using h
  · cases hres : (dst.Run [e] st.dst).1 with
    | failed err =>
      simp only [applyEntry, hn, if_false, hres]
      rw [hres] at ha
      exact ha
    | response resp =>
      rw [hres] at ha
      by_cases hc : resp.Ok = false ∧ cfg.IgnoreApplyError = false
      · simp only [applyEntry, hn, if_false, hres, hc, and_self, if_true]
        exact ha
      · cases tsRecorder with
        | none =>
          simp only [applyEntry, hn, if_false, hres, hc]
          exact ha
        | some r =>
          simp only [applyEntry, hn, if_false, hres, hc]
          exact ha.snoc_other _ (by intro ops res; simp)

theorem runLoop_runs {σ δ : Type} (cfg : Config) (dst : Destination δ)
    (tsRecorder : Option (TimestampRecorder σ)) (d0 : δ)
    (body : State σ δ → Oplog → State σ δ × Option SyncError)
    (hb : ∀ st e, ∃ q, body st e = applyEntry cfg dst tsRecorder { st with tailQuery := q } e)
    (es : List Oplog) (st : State σ δ) (h : RunsReplayed dst d0 st.trace st.dst) :
    RunsReplayed dst d0 (runLoop body st es).1.trace (runLoop body st es).1.dst := by
  induction es generalizing st with
  | nil => simpa [runLoop] using h
  | cons e rest ih =>
    obtain ⟨q, hq⟩ := hb { st with trace := st.trace ++ [Event.next e] } e
    have hstep : RunsReplayed dst d0
        (body { st with trace := st.trace ++ [Event.next e] } e).1.trace
        (body { st with trace := st.trace ++ [Event.next e] } e).1.dst := by
      rw [hq]
      apply applyEntry_runs
      exact h.snoc_other _ (by intro ops res; simp)
    cases hr : (body { st with trace := st.trace ++ [Event.next e] } e).2 with
    | some err =>
      rw [runLoop_cons_some body st e rest err hr]
      exact hstep
    | none =>
      rw [runLoop_cons_none body st e rest hr]
      exact ih _ hstep

theorem tailLoop_runs {σ δ : Type} (env : Env) (cfg : Config) (dst : Destination δ)
    (tsRecorder : Option (TimestampRecorder σ)) (d0 : δ) (rounds : List TailRound)
    (st : State σ δ) (h : RunsReplayed dst d0 st.trace st.dst) :
    RunsReplayed dst d0 (tailLoop env cfg dst tsRecorder rounds st).state.trace
      (tailLoop env cfg dst tsRecorder rounds st).state.dst := by
  induction rounds generalizing st with
  | nil => simpa [tailLoop] using h
  | cons round rounds ih =>
    have hk := runLoop_runs cfg dst tsRecorder d0 (tailEntry cfg dst tsRecorder)
      (tailEntry_body cfg dst tsRecorder) round.entries st h
    cases hr : (runLoop (tailEntry cfg dst tsRecorder) st round.entries).2 with
    | some err =>
      rw [tailLoop_cons_abort env cfg dst tsRecorder round rounds st err hr]
      exact hk
    | none =>
      cases he : round.err with
      | some err =>
        rw [tailLoop_cons_err env cfg dst tsRecorder round rounds st err hr he]
        exact hk
      | none =>
        cases ht : round.timeout with
        | true =>
          cases hf : env.fast_stop with
          | true =>
            rw [tailLoop_cons_stop env cfg dst tsRecorder round rounds st hr he ht hf]
            exact hk
          | false =>
            rw [tailLoop_cons_timeout env cfg dst tsRecorder round rounds st hr he ht hf]
            exact ih _ hk
        | false =>
          rw [tailLoop_cons_reopen env cfg dst tsRecorder round rounds st hr he ht]
          exact ih _ (hk.snoc_other _ (by intro ops res; simp))

theorem catchUp_runs {σ δ : Type} (c : Source) (cfg : Config) (dst : Destination δ)
    (tsRecorder : Option (TimestampRecorder σ)) (d0 : δ) (since : Int) (q : Query)
    (st : State σ δ) (h : RunsReplayed dst d0 st.trace st.dst) :
    RunsReplayed dst d0 (catchUp c cfg dst tsRecorder since q st).1.trace
      (catchUp c cfg dst tsRecorder since q st).1.dst := by
  by_cases hs : since > 0
  · have hk := runLoop_runs cfg dst tsRecorder d0 (restoreEntry cfg dst tsRecorder)
      (restoreEntry_body cfg dst tsRecorder) (c.Find q).1
      { st with trace := st.trace ++ [Event.find q] }
      (h.snoc_other _ (by intro ops res; simp))
    simp only [catchUp, hs, if_true]
    split <;> [skip; split] <;> exact hk
  · simpa [catchUp, hs] using h

/-- The applies recorded in the trace of a run are the calls of `Run` it made: the
destination ends in the state these calls lead to from its initial state, and the
recorded results are what they returned. -/
theorem SyncOplog_runs {σ δ : Type} (env : Env) (c : Source) (cfg : Config)
    (dst : Destination δ) (tsRecorder : Option (TimestampRecorder σ)) (s0 : σ) (d0 : δ) :
    RunsReplayed dst d0 (SyncOplog env c cfg dst tsRecorder s0 d0).state.trace
      (SyncOplog env c cfg dst tsRecorder s0 d0).state.dst := by
  cases hh : c.head with
  | error err =>
    simp [SyncOplog, hh, RunsReplayed, appliedBatches, appliedResults, replayRuns, resultsOf]
  | ok headTs =>
    have hst : RunsReplayed dst d0 (startState c tsRecorder s0 d0 headTs : State σ δ).trace
        (startState c tsRecorder s0 d0 headTs : State σ δ).dst := by
      cases tsRecorder <;>
        simp [startState, readEvents, RunsReplayed, appliedBatches, appliedResults,
          replayRuns, resultsOf]
    by_cases hdb : (dbnamesOf c).length > 0
    · have hcu := catchUp_runs c cfg dst tsRecorder d0
        (resolveStart env (readCheckpoint tsRecorder s0).1)
        (restoreQueryOf env c tsRecorder s0) (startState c tsRecorder s0 d0 headTs) hst
      simp only [SyncOplog, hh, hdb, if_true]
      split
      · exact hcu
      · simp only [tailing]
        apply tailLoop_runs
        exact hcu.snoc_other _ (by intro ops res; simp)
    · simp only [SyncOplog, hh, hdb, if_false]
      exact hst

/-- C6. In every run with a recorder configured: the values passed to `Write` are, in
order, the timestamps of the entries whose apply completed (accepted, or rejected and
ignored), one write for each; the write of an entry comes right after its apply; every
write comes right after the delivery and the completed apply of an entry with that
timestamp, which is not a no-op; at every point of the run each value written so far is
the timestamp of an entry already applied; the trace and the outcome of the run do not
depend on what `Write` does or returns; and the recorder ends in the state that its
`Write`, called with exactly these values in this order, leaves from the state after
`Read` (from the initial state when the run returned before reading). The applies these
statements speak of are the calls of `Run` the run made: the destination ends in the state
that `Run`, called with the recorded batches in order, leaves from its initial state, and
the recorded results are what these calls returned. -/
theorem C6_checkpoint_follows_apply {σ δ : Type} (env : Env) (c : Source) (cfg : Config)
    (dst : Destination δ) (r : TimestampRecorder σ) (s0 : σ) (d0 : δ) :
    writes (SyncOplog env c cfg dst (some r) s0 d0).state.trace =
      completedTimestamps cfg (SyncOplog env c cfg dst (some r) s0 d0).state.trace ∧
    (∀ (pre : List Event) (ops : List Oplog) (res : RunResult) (post : List Event),
      (SyncOplog env c cfg dst (some r) s0 d0).state.trace =
        pre ++ Event.applyOps ops res :: post → completes cfg res = true →
      ∃ e post1, ops = [e] ∧ post = Event.write e.Timestamp :: post1) ∧
    (∀ (pre : List Event) (ts : Int) (post : List Event),
      (SyncOplog env c cfg dst (some r) s0 d0).state.trace = pre ++ Event.write ts :: post →
      ∃ pre1 e res, pre = pre1 ++ [Event.next e, Event.applyOps [e] res] ∧
        e.Timestamp = ts ∧ e.Operation ≠ "n" ∧ completes cfg res = true) ∧
    (∀ p : List Event, p <+: (SyncOplog env c cfg dst (some r) s0 d0).state.trace →
      ∀ ts ∈ writes p, ∃ e res, Event.applyOps [e] res ∈ p ∧ e.Timestamp = ts ∧
        e.Operation ≠ "n" ∧ completes cfg res = true) ∧
    (∀ (σ2 : Type) (r2 : TimestampRecorder σ2) (s2 : σ2), (r2.Read s2).1 = (r.Read s0).1 →
      (SyncOplog env c cfg dst (some r2) s2 d0).state.trace =
        (SyncOplog env c cfg dst (some r) s0 d0).state.trace ∧
      (SyncOplog env c cfg dst (some r2) s2 d0).outcome =
        (SyncOplog env c cfg dst (some r) s0 d0).outcome) ∧
    (SyncOplog env c cfg dst (some r) s0 d0).state.recorder =
      replayWrites r (completedTimestamps cfg
          (SyncOplog env c cfg dst (some r) s0 d0).state.trace)
        (match c.head with
          | .error _ => s0
          | .ok _ => (r.Read s0).2) ∧
    ((SyncOplog env c cfg dst (some r) s0 d0).state.dst =
        replayRuns dst (appliedBatches (SyncOplog env c cfg dst (some r) s0 d0).state.trace)
          d0 ∧
      appliedResults (SyncOplog env c cfg dst (some r) s0 d0).state.trace =
        resultsOf dst (appliedBatches (SyncOplog env c cfg dst (some r) s0 d0).state.trace)
          d0) := by
  have hrun := SyncOplog_trace env c cfg dst (some r) s0 d0
  have hwocc : ∀ (pre : List Event) (ts : Int) (post : List Event),
      (SyncOplog env c cfg dst (some r) s0 d0).state.trace = pre ++ Event.write ts :: post →
      ∃ pre1 e res, pre = pre1 ++ [Event.next e, Event.applyOps [e] res] ∧
        e.Timestamp = ts ∧ e.Operation ≠ "n" ∧ completes cfg res = true := by
    intro pre ts post h
    obtain ⟨_, pre1, e, res, h1, h2, h3, h4⟩ := hrun.write_at pre ts post h
    have h5 : (SyncOplog env c cfg dst (some r) s0 d0).state.trace =
        pre1 ++ Event.applyOps [e] res :: (Event.write ts :: post) := by
      rw [h, h1]; simp
    obtain ⟨e2, pre2, g1, _, g3, _⟩ := hrun.applyOps_at _ _ _ _ h5
    simp only [List.cons.injEq, and_true] at g1
    subst g1
    exact ⟨pre2, e, res, by rw [h1, g3]; simp, h2, h3, h4⟩
  have hweq : writes (SyncOplog env c cfg dst (some r) s0 d0).state.trace =
      completedTimestamps cfg (SyncOplog env c cfg dst (some r) s0 d0).state.trace := by
    simpa using hrun.written_eq
  refine ⟨hweq, ?_, hwocc, ?_, ?_,
    by rw [← hweq]; exact SyncOplog_recorder env c cfg dst r s0 d0,
    SyncOplog_runs env c cfg dst (some r) s0 d0⟩
  · intro pre ops res post h hc
    obtain ⟨e, pre1, h1, _, _, h5⟩ := hrun.applyOps_at pre ops res post h
    rcases h5 with ⟨_, post1, h7⟩ | ⟨h6, _, _⟩
    · exact ⟨e, post1, h1, by simpa [writeEvents] using h7⟩
    · rw [hc] at h6; exact absurd h6 (by simp)
  · intro p hp ts hts
    obtain ⟨rest, hrest⟩ := hp
    have hmem : Event.write ts ∈ p := by
      simp only [writes, List.mem_filterMap] at hts
      obtain ⟨ev, hev, h2⟩ := hts
      cases ev <;> simp at h2
      subst h2
      exact hev
    obtain ⟨a, b, hab⟩ := List.append_of_mem hmem
    have h : (SyncOplog env c cfg dst (some r) s0 d0).state.trace =
        a ++ Event.write ts :: (b ++ rest) := by
      rw [← hrest, hab]; simp
    obtain ⟨pre1, e, res, h1, h2, h3, h4⟩ := hwocc a ts _ h
    exact ⟨e, res, by rw [hab, h1]; simp, h2, h3, h4⟩
  · intro σ2 r2 s2 hread
    obtain ⟨h1, h2⟩ := SyncOplog_forget env c cfg dst (some r) s0 d0
    obtain ⟨g1, g2⟩ := SyncOplog_forget env c cfg dst (some r2) s2 d0
    have hb : blanked (some r2) s2 = blanked (some r) s0 := by
      simp [blanked, hread]
    rw [hb] at g1 g2
    refine ⟨?_, g2.trans h2.symm⟩
    have := congrArg State.trace (g1.trans h1.symm)
    simpa [State.forget] using this

/-! ## Claims on the checkpoint file and on the start point -/

/-- C2. For every `int64` timestamp `ts` and every file system in which the recorder's
path can be written, whatever the file held before: `Write ts` returns no error, leaves
the file holding exactly the text `Sprintf ts`, which is the base-10 text of `ts`, and
changes no other file; `Read` then returns `ts` without error. And whenever `Read`
succeeds with a value, the whole content of the file is the base-10 text of that value,
which is in the `int64` range. -/
theorem C2_checkpoint_round_trip (r : DiskTimestampRecorder) (fs : FileSystem) (ts : Int)
    (hlo : minInt64 ≤ ts) (hhi : ts ≤ maxInt64) (hw : fs.writable r.filepath = true) :
    (r.Write ts fs).1 = none ∧
    (r.Write ts fs).2.content r.filepath = some (Sprintf ts) ∧
    (∀ p, p ≠ r.filepath → (r.Write ts fs).2.content p = fs.content p) ∧
    IsDecimalText (Sprintf ts) ts ∧
    r.Read (r.Write ts fs).2 = .ok ts ∧
    (∀ (fs1 : FileSystem) (v : Int), r.Read fs1 = .ok v →
      ∃ data, fs1.content r.filepath = some data ∧ IsDecimalText data v ∧
        minInt64 ≤ v ∧ v ≤ maxInt64) := by
  have hp := ParseInt_Sprintf ts hlo hhi
  refine ⟨?_, ?_, ?_, (ParseInt_ok _ _ hp).1, ?_, ?_⟩
  · simp [DiskTimestampRecorder.Write, WriteFile, hw]
  · simp [DiskTimestampRecorder.Write, WriteFile, hw]
  · intro p hne
    simp [DiskTimestampRecorder.Write, WriteFile, hw, hne]
  · simp [DiskTimestampRecorder.Read, DiskTimestampRecorder.Write, WriteFile, hw, ReadFile, hp]
  · intro fs1 v hv
    simp only [DiskTimestampRecorder.Read, ReadFile] at hv
    cases hc : fs1.content r.filepath with
    | none => simp [hc] at hv
    | some data =>
      simp only [hc] at hv
      cases hpi : ParseInt data with
      | error e => simp [hpi] at hv
      | ok w =>
        simp only [hpi, Except.ok.injEq] at hv
        subst hv
        exact ⟨data, rfl, ParseInt_ok _ _ hpi⟩

/-- The round trip of C2 at the smallest `int64`, over a file that held other text. -/
theorem C2_witness :
    (⟨"ts"⟩ : DiskTimestampRecorder).Read
      ((⟨"ts"⟩ : DiskTimestampRecorder).Write (-9223372036854775808)
        (singleFile "ts" (bytes "105\n"))).2 = .ok (-9223372036854775808) :=
  (C2_checkpoint_round_trip ⟨"ts"⟩ (singleFile "ts" (bytes "105\n")) (-9223372036854775808)
    (by decide) (by decide) rfl).2.2.2.2.1

/-- C9, as the program computes it. With the checkpoint file holding `105` and the flags
`since = 100`, `ordinal = 0`: the recorder reads 105, the since-timestamp is
`100 * 2^32 = 429496729600`, which is greater than 105, the resolved start is the
since-timestamp, and the catch-up query of the run asks for `ts > 429496729600`. -/
theorem C9_since_pair_exceeds_checkpoint :
    (⟨"ts"⟩ : DiskTimestampRecorder).Read (singleFile "ts" (bytes "105")) = .ok 105 ∧
    sinceFlagTimestamp (flags 100 0) = 429496729600 ∧
    (105 : Int) < sinceFlagTimestamp (flags 100 0) ∧
    resolveStart (flags 100 0)
      (readCheckpoint (some (DiskTimestampRecorder.toRecorder ⟨"ts"⟩))
        (singleFile "ts" (bytes "105"))).1 = 429496729600 ∧
    restoreQueryOf (flags 100 0) (logSource literalMatch sampleLog ["app"])
      (some (DiskTimestampRecorder.toRecorder ⟨"ts"⟩)) (singleFile "ts" (bytes "105")) =
      { ts := .gt 429496729600, ns := some [{ Pattern := "app.*" }] } := by
  refine ⟨by decide, by decide, by decide, by decide, by decide⟩

/-- C9 as stated fails: with the checkpoint file holding `105` and `since = 100`,
`ordinal = 0`, the since-timestamp is not less than 105 and the resolved start is not
105. -/
theorem C9_counterexample :
    ¬ (sinceFlagTimestamp (flags 100 0) < 105) ∧
    resolveStart (flags 100 0)
      (readCheckpoint (some (DiskTimestampRecorder.toRecorder ⟨"ts"⟩))
        (singleFile "ts" (bytes "105"))).1 ≠ 105 := by
  refine ⟨by decide, by decide⟩

/-- The statement of C5 on a run with `IgnoreApplyError` set whose first apply fails in
transport: nothing follows the apply and `SyncOplog` returns the error. -/
theorem C5_witness :
    (SyncOplog (flags 0 0) (logSource literalMatch sampleLog ["admin", "app", "local"])
      { IgnoreApplyError := true } scripted
      (some (DiskTimestampRecorder.toRecorder ⟨"ts"⟩)) (singleFile "ts" (bytes "99"))
      [.failed (.other "EOF")]).state.trace =
      [Event.headLookup, Event.recorderRead, Event.listDatabases,
        Event.find { ts := .gt 99, ns := some [{ Pattern := "app.*" }] },
        Event.next (entry 100 "i" "app.users")] ++
      Event.applyOps [entry 100 "i" "app.users"] (.failed (.other "EOF")) :: [] ∧
    (SyncOplog (flags 0 0) (logSource literalMatch sampleLog ["admin", "app", "local"])
      { IgnoreApplyError := true } scripted
      (some (DiskTimestampRecorder.toRecorder ⟨"ts"⟩)) (singleFile "ts" (bytes "99"))
      [.failed (.other "EOF")]).outcome = .returned (some (.applyingOps (.other "EOF"))) :=
  ⟨by decide,
   (C5_transport_error_is_fatal (flags 0 0)
      (logSource literalMatch sampleLog ["admin", "app", "local"])
      { IgnoreApplyError := true } scripted
      (some (DiskTimestampRecorder.toRecorder ⟨"ts"⟩)) (singleFile "ts" (bytes "99"))
      [.failed (.other "EOF")]
      [Event.headLookup, Event.recorderRead, Event.listDatabases,
        Event.find { ts := .gt 99, ns := some [{ Pattern := "app.*" }] },
        Event.next (entry 100 "i" "app.users")]
      [entry 100 "i" "app.users"] (.other "EOF") [] (by decide)).2.1⟩

/-! ## The tailing query after the catch-up loop -/

theorem applyEntry_tailQuery {σ δ : Type} (cfg : Config) (dst : Destination δ)
    (tsRecorder : Option (TimestampRecorder σ)) (st : State σ δ) (e : Oplog) :
    (applyEntry cfg dst tsRecorder st e).1.tailQuery = st.tailQuery := by
  rcases applyEntry_cases cfg dst tsRecorder st e with ⟨_, h⟩ | ⟨_, _, _, _, _, h⟩ | ⟨_, _, _, _, h⟩
  · rw [h]
  · exact h
  · exact h

/-- After a catch-up loop that consumed its cursor, `tailQuery` is the document of line
193 for the last entry delivered, which has no key `"ns"`; it is unchanged when the
cursor delivered nothing. -/
theorem runLoop_restore_tailQuery {σ δ : Type} (cfg : Config) (dst : Destination δ)
    (tsRecorder : Option (TimestampRecorder σ)) (es : List Oplog) (st : State σ δ)
    (h : (runLoop (restoreEntry cfg dst tsRecorder) st es).2 = none) :
    (runLoop (restoreEntry cfg dst tsRecorder) st es).1.tailQuery =
      match es.getLast? with
      | none => st.tailQuery
      | some e => { ts := .gte e.Timestamp, ns := none } := by
  induction es generalizing st with
  | nil => simp [runLoop]
  | cons e rest ih =>
    cases hr : (restoreEntry cfg dst tsRecorder
        { st with trace := st.trace ++ [Event.next e] } e).2 with
    | some err =>
      rw [runLoop_cons_some _ st e rest err hr] at h
      simp at h
    | none =>
      rw [runLoop_cons_none _ st e rest hr] at h ⊢
      rw [ih _ h]
      have hq : (restoreEntry cfg dst tsRecorder
          { st with trace := st.trace ++ [Event.next e] } e).1.tailQuery =
          { ts := .gte e.Timestamp, ns := none } := by
        simp only [restoreEntry]
        rw [applyEntry_tailQuery]
      cases rest with
      | nil => simp [hq]
      | cons e2 rest2 =>
        rw [List.getLast?_cons_cons, List.getLast?_eq_getLast _ (List.cons_ne_nil e2 rest2)]

theorem runLoop_tail_tailQuery {σ δ : Type} (cfg : Config) (dst : Destination δ)
    (tsRecorder : Option (TimestampRecorder σ)) (es : List Oplog) (st : State σ δ) :
    (runLoop (tailEntry cfg dst tsRecorder) st es).1.tailQuery = st.tailQuery := by
  induction es generalizing st with
  | nil => simp [runLoop]
  | cons e rest ih =>
    have hq : (tailEntry cfg dst tsRecorder
        { st with trace := st.trace ++ [Event.next e] } e).1.tailQuery = st.tailQuery := by
      simp only [tailEntry]
      rw [applyEntry_tailQuery]
    cases hr : (tailEntry cfg dst tsRecorder
        { st with trace := st.trace ++ [Event.next e] } e).2 with
    | some err =>
      rw [runLoop_cons_some _ st e rest err hr]
      exact hq
    | none =>
      rw [runLoop_cons_none _ st e rest hr, ih, hq]

/-! ## Which calls a phase can make -/

theorem writeEvents_kind (hr : Bool) (e : Oplog) (ev : Event)
    (h : ev ∈ writeEvents hr e) : ev.isControl = false := by
  cases hr
  · simp [writeEvents] at h
  · simp only [writeEvents, if_true, List.mem_singleton] at h
    rw [h]; rfl

theorem runLoop_events_kind {σ δ : Type} (cfg : Config) (dst : Destination δ)
    (tsRecorder : Option (TimestampRecorder σ))
    (body : State σ δ → Oplog → State σ δ × Option SyncError)
    (hb : ∀ st e, ∃ q, body st e = applyEntry cfg dst tsRecorder { st with tailQuery := q } e)
    (es : List Oplog) (st : State σ δ) :
    ∀ ev ∈ (runLoop body st es).1.trace, ev ∈ st.trace ∨ ev.isControl = false := by
  induction es generalizing st with
  | nil => intro ev hev; exact Or.inl (by simpa [runLoop] using hev)
  | cons e rest ih =>
    obtain ⟨q, hq⟩ := hb { st with trace := st.trace ++ [Event.next e] } e
    have hstep : ∀ ev ∈ (body { st with trace := st.trace ++ [Event.next e] } e).1.trace,
        ev ∈ st.trace ∨ ev.isControl = false := by
      intro ev hev
      rw [hq] at hev
      rcases applyEntry_cases cfg dst tsRecorder
        { st with trace := st.trace ++ [Event.next e], tailQuery := q } e with
        ⟨_, h⟩ | ⟨_, _, _, htr, _, _⟩ | ⟨_, _, _, htr, _⟩
      · rw [h] at hev
        simp only [List.mem_append, List.mem_cons, List.not_mem_nil, or_false] at hev
        rcases hev with h1 | h1
        · exact Or.inl h1
        · exact Or.inr (by rw [h1]; rfl)
      · rw [htr] at hev
        simp only [List.mem_append, List.mem_cons, List.not_mem_nil, or_false] at hev
        rcases hev with (h1 | h1) | h1
        · exact Or.inl h1
        · exact Or.inr (by rw [h1]; rfl)
        · exact Or.inr (by rw [h1]; rfl)
      · rw [htr] at hev
        simp only [List.mem_append, List.mem_cons, List.not_mem_nil, or_false] at hev
        rcases hev with (h1 | h1) | h1 | h1
        · exact Or.inl h1
        · exact Or.inr (by rw [h1]; rfl)
        · exact Or.inr (by rw [h1]; rfl)
        · exact Or.inr (writeEvents_kind _ _ _ h1)
    cases hr : (body { st with trace := st.trace ++ [Event.next e] } e).2 with
    | some err =>
      rw [runLoop_cons_some body st e rest err hr]
      exact hstep
    | none =>
      rw [runLoop_cons_none body st e rest hr]
      intro ev hev
      rcases ih _ ev hev with h1 | h1
      · exact hstep ev h1
      · exact Or.inr h1

theorem tailLoop_events_kind {σ δ : Type} (env : Env) (cfg : Config) (dst : Destination δ)
    (tsRecorder : Option (TimestampRecorder σ)) (rounds : List TailRound) (st : State σ δ) :
    ∀ ev ∈ (tailLoop env cfg dst tsRecorder rounds st).state.trace,
      ev ∈ st.trace ∨ ev.isControl = false ∨ ev = Event.tail st.tailQuery := by
  induction rounds generalizing st with
  | nil => intro ev hev; exact Or.inl (by simpa [tailLoop] using hev)
  | cons round rounds ih =>
    have hk := runLoop_events_kind cfg dst tsRecorder (tailEntry cfg dst tsRecorder)
      (tailEntry_body cfg dst tsRecorder) round.entries st
    have hq := runLoop_tail_tailQuery cfg dst tsRecorder round.entries st
    have hk2 : ∀ ev ∈ (runLoop (tailEntry cfg dst tsRecorder) st round.entries).1.trace,
        ev ∈ st.trace ∨ ev.isControl = false ∨ ev = Event.tail st.tailQuery := by
      intro ev hev
      rcases hk ev hev with h | h
      · exact Or.inl h
      · exact Or.inr (Or.inl h)
    cases hr : (runLoop (tailEntry cfg dst tsRecorder) st round.entries).2 with
    | some err =>
      rw [tailLoop_cons_abort env cfg dst tsRecorder round rounds st err hr]
      exact hk2
    | none =>
      cases he : round.err with
      | some err =>
        rw [tailLoop_cons_err env cfg dst tsRecorder round rounds st err hr he]
        exact hk2
      | none =>
        cases ht : round.timeout with
        | true =>
          cases hf : env.fast_stop with
          | true =>
            rw [tailLoop_cons_stop env cfg dst tsRecorder round rounds st hr he ht hf]
            exact hk2
          | false =>
            rw [tailLoop_cons_timeout env cfg dst tsRecorder round rounds st hr he ht hf]
            intro ev hev
            rcases ih _ ev hev with h | h | h
            · exact hk2 ev h
            · exact Or.inr (Or.inl h)
            · exact Or.inr (Or.inr (by rw [h, hq]))
        | false =>
          rw [tailLoop_cons_reopen env cfg dst tsRecorder round rounds st hr he ht]
          intro ev hev
          rcases ih _ ev hev with h | h | h
          · simp only [List.mem_append, List.mem_singleton] at h
            rcases h with h | h
            · exact hk2 ev h
            · exact Or.inr (Or.inr (by rw [h, hq]))
          · exact Or.inr (Or.inl h)
          · exact Or.inr (Or.inr (by rw [h, hq]))

theorem tailing_events_kind {σ δ : Type} (env : Env) (c : Source) (cfg : Config)
    (dst : Destination δ) (tsRecorder : Option (TimestampRecorder σ)) (st : State σ δ) :
    (∃ rest, (tailing env c cfg dst tsRecorder st).state.trace =
      st.trace ++ Event.tail st.tailQuery :: rest) ∧
    ∀ ev ∈ (tailing env c cfg dst tsRecorder st).state.trace,
      ev ∈ st.trace ∨ ev.isControl = false ∨ ev = Event.tail st.tailQuery := by
  refine ⟨?_, ?_⟩
  · obtain ⟨evs, h1, _, _⟩ := tailLoop_trace env cfg dst tsRecorder (c.Tail st.tailQuery)
      { st with trace := st.trace ++ [Event.tail st.tailQuery] }
    exact ⟨evs, by simp only [tailing]; rw [h1]; simp⟩
  · intro ev hev
    rcases tailLoop_events_kind env cfg dst tsRecorder (c.Tail st.tailQuery)
      { st with trace := st.trace ++ [Event.tail st.tailQuery] } ev hev with h | h | h
    · simp only [List.mem_append, List.mem_singleton] at h
      rcases h with h | h
      · exact Or.inl h
      · exact Or.inr (Or.inr h)
    · exact Or.inr (Or.inl h)
    · exact Or.inr (Or.inr h)

theorem catchUp_events_kind {σ δ : Type} (c : Source) (cfg : Config) (dst : Destination δ)
    (tsRecorder : Option (TimestampRecorder σ)) (since : Int) (q : Query) (st : State σ δ) :
    (since > 0 → ∃ rest, (catchUp c cfg dst tsRecorder since q st).1.trace =
      st.trace ++ Event.find q :: rest) ∧
    (¬ since > 0 → catchUp c cfg dst tsRecorder since q st = (st, none)) ∧
    ∀ ev ∈ (catchUp c cfg dst tsRecorder since q st).1.trace,
      ev ∈ st.trace ∨ ev.isControl = false ∨ (since > 0 ∧ ev = Event.find q) := by
  by_cases hs : since > 0
  · have hk := runLoop_events_kind cfg dst tsRecorder (restoreEntry cfg dst tsRecorder)
      (restoreEntry_body cfg dst tsRecorder) (c.Find q).1
      { st with trace := st.trace ++ [Event.find q] }
    obtain ⟨evs, h1, _, _, _⟩ := runLoop_trace cfg dst tsRecorder
      (restoreEntry cfg dst tsRecorder) (restoreEntry_body cfg dst tsRecorder) (c.Find q).1
      { st with trace := st.trace ++ [Event.find q] }
    have htr : (catchUp c cfg dst tsRecorder since q st).1.trace =
        (runLoop (restoreEntry cfg dst tsRecorder)
          { st with trace := st.trace ++ [Event.find q] } (c.Find q).1).1.trace := by
      simp only [catchUp, hs, if_true]
      split <;> [skip; split] <;> rfl
    refine ⟨fun _ => ⟨evs, by rw [htr, h1]; simp⟩, fun h => absurd hs h, ?_⟩
    intro ev hev
    rw [htr] at hev
    rcases hk ev hev with h | h
    · simp only [List.mem_append, List.mem_singleton] at h
      rcases h with h | h
      · exact Or.inl h
      · exact Or.inr (Or.inr ⟨hs, h⟩)
    · exact Or.inr (Or.inl h)
  · have : catchUp c cfg dst tsRecorder since q st = (st, none) := by simp [catchUp, hs]
    exact ⟨fun h => absurd h hs, fun _ => this, fun ev hev => Or.inl (by rw [this] at hev; exact hev)⟩

/-! ## The phases of a run that passed the start-up checks -/

theorem restoreBound_of_pos (env : Env) (read : Option (Except Err Int))
    (h : resolveStart env read > 0) : restoreBound env read = .gt (resolveStart env read) := by
  have hs : ¬ env.since > 0 → sinceFlagTimestamp env = 0 := by
    intro h1; simp [sinceFlagTimestamp, h1]
  rcases read with _ | (err | C)
  · simp only [resolveStart] at h ⊢
    by_cases h1 : env.since > 0
    · simp [restoreBound, h1]
    · rw [hs h1] at h; exact absurd h (by decide)
  · simp only [resolveStart] at h ⊢
    by_cases h1 : env.since > 0
    · simp [restoreBound, h1]
    · rw [hs h1] at h; exact absurd h (by decide)
  · simp only [resolveStart] at h ⊢
    by_cases h2 : C > sinceFlagTimestamp env
    · simp [restoreBound, h2]
    · simp only [h2, if_false] at h ⊢
      by_cases h1 : env.since > 0
      · simp [restoreBound, h1, h2]
      · rw [hs h1] at h; exact absurd h (by decide)

/-- After the start-up checks: the trace goes on with the catch-up query when the resolved
start is positive and with the tailing query of the log head otherwise, and every later
call is a delivery, an apply, a checkpoint write, or the opening of the tailing cursor
with the `tailQuery` the catch-up phase left. -/
theorem SyncOplog_phases {σ δ : Type} (env : Env) (c : Source) (cfg : Config)
    (dst : Destination δ) (tsRecorder : Option (TimestampRecorder σ)) (s0 : σ) (d0 : δ)
    (headTs : Int) (hhead : c.head = .ok headTs) (hdb : (dbnamesOf c).length > 0) :
    (resolveStart env (readCheckpoint tsRecorder s0).1 > 0 →
      ∃ rest, (SyncOplog env c cfg dst tsRecorder s0 d0).state.trace =
        (startState c tsRecorder s0 d0 headTs : State σ δ).trace ++
          Event.find (restoreQueryOf env c tsRecorder s0) :: rest) ∧
    (¬ resolveStart env (readCheckpoint tsRecorder s0).1 > 0 →
      ∃ rest, (SyncOplog env c cfg dst tsRecorder s0 d0).state.trace =
        (startState c tsRecorder s0 d0 headTs : State σ δ).trace ++
          Event.tail { ts := .gt headTs, ns := some (dbnamesOf c) } :: rest) ∧
    (∀ ev ∈ (SyncOplog env c cfg dst tsRecorder s0 d0).state.trace,
      ev ∈ (startState c tsRecorder s0 d0 headTs : State σ δ).trace ∨ ev.isControl = false ∨
      (resolveStart env (readCheckpoint tsRecorder s0).1 > 0 ∧
        ev = Event.find (restoreQueryOf env c tsRecorder s0)) ∨
      ev = Event.tail (catchUp c cfg dst tsRecorder
        (resolveStart env (readCheckpoint tsRecorder s0).1)
        (restoreQueryOf env c tsRecorder s0)
        (startState c tsRecorder s0 d0 headTs)).1.tailQuery) := by
  obtain ⟨k1, k2, k3⟩ := catchUp_events_kind c cfg dst tsRecorder
    (resolveStart env (readCheckpoint tsRecorder s0).1)
    (restoreQueryOf env c tsRecorder s0) (startState c tsRecorder s0 d0 headTs)
  obtain ⟨t1, t2⟩ := tailing_events_kind env c cfg dst tsRecorder
    (catchUp c cfg dst tsRecorder (resolveStart env (readCheckpoint tsRecorder s0).1)
      (restoreQueryOf env c tsRecorder s0) (startState c tsRecorder s0 d0 headTs)).1
  cases hr : (catchUp c cfg dst tsRecorder (resolveStart env (readCheckpoint tsRecorder s0).1)
      (restoreQueryOf env c tsRecorder s0) (startState c tsRecorder s0 d0 headTs)).2 with
  | some err =>
    have hrun : (SyncOplog env c cfg dst tsRecorder s0 d0).state =
        (catchUp c cfg dst tsRecorder (resolveStart env (readCheckpoint tsRecorder s0).1)
          (restoreQueryOf env c tsRecorder s0) (startState c tsRecorder s0 d0 headTs)).1 := by
      simp only [SyncOplog, hhead, hdb, if_true, hr]
    rw [hrun]
    refine ⟨k1, ?_, ?_⟩
    · intro hneg
      rw [k2 hneg] at hr
      simp at hr
    · intro ev hev
      rcases k3 ev hev with h | h | h
      · exact Or.inl h
      · exact Or.inr (Or.inl h)
      · exact Or.inr (Or.inr (Or.inl h))
  | none =>
    have hrun : (SyncOplog env c cfg dst tsRecorder s0 d0).state =
        (tailing env c cfg dst tsRecorder
          (catchUp c cfg dst tsRecorder (resolveStart env (readCheckpoint tsRecorder s0).1)
          (restoreQueryOf env c tsRecorder s0) (startState c tsRecorder s0 d0 headTs)).1).state := by
      simp only [SyncOplog, hhead, hdb, if_true, hr]
    rw [hrun]
    obtain ⟨rest2, ht⟩ := t1
    refine ⟨?_, ?_, ?_⟩
    · intro hpos
      obtain ⟨rest1, h1⟩ := k1 hpos
      exact ⟨rest1 ++ Event.tail (catchUp c cfg dst tsRecorder
        (resolveStart env (readCheckpoint tsRecorder s0).1)
        (restoreQueryOf env c tsRecorder s0)
        (startState c tsRecorder s0 d0 headTs)).1.tailQuery :: rest2, by rw [ht, h1]; simp⟩
    · intro hneg
      refine ⟨rest2, ?_⟩
      rw [ht, k2 hneg]
      rfl
    · intro ev hev
      rcases t2 ev hev with h | h | h
      · rcases k3 ev h with h | h | h
        · exact Or.inl h
        · exact Or.inr (Or.inl h)
        · exact Or.inr (Or.inr (Or.inl h))
      · exact Or.inr (Or.inl h)
      · exact Or.inr (Or.inr (Or.inr h))

theorem startState_trace_kinds {σ δ : Type} (c : Source)
    (tsRecorder : Option (TimestampRecorder σ)) (s0 : σ) (d0 : δ) (headTs : Int) :
    ∀ ev ∈ (startState c tsRecorder s0 d0 headTs : State σ δ).trace,
      ev = Event.headLookup ∨ ev = Event.recorderRead ∨ ev = Event.listDatabases := by
  intro ev hev
  cases tsRecorder with
  | none =>
    simp only [startState, readEvents, List.nil_append, List.mem_cons, List.not_mem_nil,
      or_false] at hev
    rcases hev with h | h
    · exact Or.inl h
    · exact Or.inr (Or.inr h)
  | some r =>
    simp only [startState, readEvents, List.cons_append, List.nil_append, List.mem_cons,
      List.not_mem_nil, or_false] at hev
    rcases hev with h | h | h
    · exact Or.inl h
    · exact Or.inr (Or.inl h)
    · exact Or.inr (Or.inr h)

/-- C1. For a run that passed the log-head lookup and found a database to replicate. The
since-timestamp `S` is `sec<<32 + ord` when the flag `since` is greater than 0 and 0
otherwise; the checkpoint is absent when no recorder is configured or its `Read` failed;
the resolved start is the checkpoint if it exists and is greater than `S`, otherwise `S`.
Whatever `Read` returned, the run goes on after the start-up calls: with the catch-up
query `ts > start` if the resolved start is greater than 0, and otherwise, without any
catch-up query in the whole run, with the tailing query `ts > log head`. -/
theorem C1_start_point_resolution {σ δ : Type} (env : Env) (c : Source) (cfg : Config)
    (dst : Destination δ) (tsRecorder : Option (TimestampRecorder σ)) (s0 : σ) (d0 : δ)
    (headTs : Int) (hhead : c.head = .ok headTs) (hdb : (dbnamesOf c).length > 0) :
    sinceFlagTimestamp env =
      (if env.since > 0 then wrapInt64 (env.since * 2 ^ 32 + env.ordinal) else 0) ∧
    (tsRecorder = none → checkpointOf (readCheckpoint tsRecorder s0).1 = none) ∧
    (∀ r err, tsRecorder = some r → (r.Read s0).1 = .error err →
      checkpointOf (readCheckpoint tsRecorder s0).1 = none) ∧
    (∀ r C, tsRecorder = some r → (r.Read s0).1 = .ok C →
      checkpointOf (readCheckpoint tsRecorder s0).1 = some C) ∧
    resolveStart env (readCheckpoint tsRecorder s0).1 =
      specStart (sinceFlagTimestamp env) (checkpointOf (readCheckpoint tsRecorder s0).1) ∧
    ((∃ q, Event.find q ∈ (SyncOplog env c cfg dst tsRecorder s0 d0).state.trace) ↔
      resolveStart env (readCheckpoint tsRecorder s0).1 > 0) ∧
    (resolveStart env (readCheckpoint tsRecorder s0).1 > 0 →
      ∃ rest, (SyncOplog env c cfg dst tsRecorder s0 d0).state.trace =
        Event.headLookup :: (readEvents tsRecorder ++ [Event.listDatabases]) ++
          Event.find { ts := .gt (resolveStart env (readCheckpoint tsRecorder s0).1),
                       ns := some (dbnamesOf c) } :: rest) ∧
    (¬ resolveStart env (readCheckpoint tsRecorder s0).1 > 0 →
      ∃ rest, (SyncOplog env c cfg dst tsRecorder s0 d0).state.trace =
        Event.headLookup :: (readEvents tsRecorder ++ [Event.listDatabases]) ++
          Event.tail { ts := .gt headTs, ns := some (dbnamesOf c) } :: rest) ∧
    (checkpointOf (readCheckpoint tsRecorder s0).1 = none → ¬ env.since > 0 →
      resolveStart env (readCheckpoint tsRecorder s0).1 = 0) := by
  obtain ⟨p1, p2, p3⟩ := SyncOplog_phases env c cfg dst tsRecorder s0 d0 headTs hhead hdb
  have hspec : resolveStart env (readCheckpoint tsRecorder s0).1 =
      specStart (sinceFlagTimestamp env) (checkpointOf (readCheckpoint tsRecorder s0).1) := by
    rcases (readCheckpoint tsRecorder s0).1 with _ | (err | C) <;>
      simp [resolveStart, specStart, checkpointOf]
  refine ⟨rfl, ?_, ?_, ?_, hspec, ?_, ?_, ?_, ?_⟩
  · intro h; subst h; rfl
  · intro r err h hr; subst h; simp [readCheckpoint, hr, checkpointOf]
  · intro r C h hr; subst h; simp [readCheckpoint, hr, checkpointOf]
  · constructor
    · rintro ⟨q, hq⟩
      rcases p3 _ hq with h | h | h | h
      · rcases startState_trace_kinds c tsRecorder s0 d0 headTs _ h with h | h | h <;>
          simp at h
      · simp [Event.isControl] at h
      · exact h.1
      · simp at h
    · intro hpos
      obtain ⟨rest, h⟩ := p1 hpos
      exact ⟨restoreQueryOf env c tsRecorder s0, by rw [h]; simp⟩
  · intro hpos
    obtain ⟨rest, h⟩ := p1 hpos
    refine ⟨rest, ?_⟩
    rw [h]
    simp only [restoreQueryOf, restoreBound_of_pos env _ hpos]
    rfl
  · intro hneg
    obtain ⟨rest, h⟩ := p2 hneg
    exact ⟨rest, by rw [h]; rfl⟩
  · intro hc hs
    rw [hspec, hc]
    simp [specStart, sinceFlagTimestamp, hs]

/-- The statement of C1 on a run over the sample log from a checkpoint file holding 99. -/
theorem C1_witness :
    ((∃ q, Event.find q ∈ (SyncOplog (flags 0 0)
      (logSource literalMatch sampleLog ["admin", "app", "local"])
      { IgnoreApplyError := false } acceptAll
      (some (DiskTimestampRecorder.toRecorder ⟨"ts"⟩)) (singleFile "ts" (bytes "99"))
      ()).state.trace) ↔
    resolveStart (flags 0 0) (readCheckpoint (some (DiskTimestampRecorder.toRecorder ⟨"ts"⟩))
      (singleFile "ts" (bytes "99"))).1 > 0) ∧
    resolveStart (flags 0 0) (readCheckpoint (some (DiskTimestampRecorder.toRecorder ⟨"ts"⟩))
      (singleFile "ts" (bytes "99"))).1 = 99 :=
  ⟨(C1_start_point_resolution (flags 0 0)
      (logSource literalMatch sampleLog ["admin", "app", "local"])
      { IgnoreApplyError := false } acceptAll
      (some (DiskTimestampRecorder.toRecorder ⟨"ts"⟩)) (singleFile "ts" (bytes "99")) ()
      102 (by decide) (by decide)).2.2.2.2.2.1, by decide⟩

/-! ## Claims on the start-up checks and on the tailing query -/

/-- C8, as the program does it. When the source lists no database other than `local` and
`admin` (or the listing fails), the pattern list is empty. If the log-head lookup
succeeded, `SyncOplog` returns the no-databases error after exactly three calls: the
log-head lookup, the checkpoint read when a recorder is configured, and the database
listing. If the log-head lookup failed, it returns that error after that one call. In both
cases no cursor is opened, no entry is applied, no checkpoint is written, and the
destination is untouched. -/
theorem C8_no_databases {σ δ : Type} (env : Env) (c : Source) (cfg : Config)
    (dst : Destination δ) (tsRecorder : Option (TimestampRecorder σ)) (s0 : σ) (d0 : δ)
    (hdb : ∀ names, c.DatabaseNames = .ok names → ∀ n ∈ names, n = "local" ∨ n = "admin") :
    dbnamesOf c = [] ∧
    (∀ headTs, c.head = .ok headTs →
      (SyncOplog env c cfg dst tsRecorder s0 d0).outcome = .returned (some .noDatabases) ∧
      (SyncOplog env c cfg dst tsRecorder s0 d0).state.trace =
        Event.headLookup :: (readEvents tsRecorder ++ [Event.listDatabases]) ∧
      (SyncOplog env c cfg dst tsRecorder s0 d0).state.dst = d0 ∧
      (SyncOplog env c cfg dst tsRecorder s0 d0).state.recorder =
        (readCheckpoint tsRecorder s0).2) ∧
    (∀ err, c.head = .error err →
      (SyncOplog env c cfg dst tsRecorder s0 d0).outcome =
        .returned (some (.oplogFindOne err)) ∧
      (SyncOplog env c cfg dst tsRecorder s0 d0).state.trace = [Event.headLookup] ∧
      (SyncOplog env c cfg dst tsRecorder s0 d0).state.dst = d0 ∧
      (SyncOplog env c cfg dst tsRecorder s0 d0).state.recorder = s0) ∧
    (∀ ev ∈ (SyncOplog env c cfg dst tsRecorder s0 d0).state.trace,
      ev = Event.headLookup ∨ ev = Event.recorderRead ∨ ev = Event.listDatabases) := by
  have hnil : dbnamesOf c = [] := by
    simp only [dbnamesOf, databaseRegExs]
    cases hn : c.DatabaseNames with
    | error e => rfl
    | ok names =>
      simp only [List.map_eq_nil_iff, List.filter_eq_nil_iff]
      intro n hmem
      rcases hdb names hn n hmem with h | h <;> simp [h]
  have hlen : ¬ (dbnamesOf c).length > 0 := by simp [hnil]
  refine ⟨hnil, ?_, ?_, ?_⟩
  · intro headTs hh
    simp [SyncOplog, hh, hlen, startState]
  · intro err hh
    simp [SyncOplog, hh]
  · intro ev hev
    cases hh : c.head with
    | error err =>
      simp only [SyncOplog, hh, List.mem_singleton] at hev
      exact Or.inl hev
    | ok headTs =>
      simp only [SyncOplog, hh, hlen, if_false] at hev
      exact startState_trace_kinds c tsRecorder s0 d0 headTs ev hev

/-- The statement of C8 on a source whose only databases are `local` and `admin`. -/
theorem C8_witness :
    (SyncOplog (flags 0 0) (logSource literalMatch sampleLog ["local", "admin"])
      { IgnoreApplyError := false } acceptAll
      (some (DiskTimestampRecorder.toRecorder ⟨"ts"⟩)) (singleFile "ts" (bytes "99"))
      ()).outcome = .returned (some .noDatabases) :=
  ((C8_no_databases (flags 0 0) (logSource literalMatch sampleLog ["local", "admin"])
      { IgnoreApplyError := false } acceptAll
      (some (DiskTimestampRecorder.toRecorder ⟨"ts"⟩)) (singleFile "ts" (bytes "99")) ()
      (by intro names h n hn
          simp only [logSource, Except.ok.injEq] at h
          subst h
          simpa using hn)).2.1 102 (by decide)).1

/-- C8 as stated fails. On a source whose only databases are `local` and `admin` the
log-head lookup, a query against the source, is issued before `SyncOplog` fails; and when
that lookup fails, on an empty log, the error returned is not the no-databases error. -/
theorem C8_counterexample :
    dbnamesOf (logSource literalMatch sampleLog ["local", "admin"]) = [] ∧
    (SyncOplog (flags 0 0) (logSource literalMatch sampleLog ["local", "admin"])
      { IgnoreApplyError := false } acceptAll
      (some (DiskTimestampRecorder.toRecorder ⟨"ts"⟩)) (singleFile "ts" (bytes "99"))
      ()).state.trace = [Event.headLookup, Event.recorderRead, Event.listDatabases] ∧
    (SyncOplog (flags 0 0) (logSource literalMatch [] ["local", "admin"])
      { IgnoreApplyError := false } acceptAll
      (some (DiskTimestampRecorder.toRecorder ⟨"ts"⟩)) (singleFile "ts" (bytes "99"))
      ()).outcome = .returned (some (.oplogFindOne (.other "not found"))) := by
  refine ⟨by decide, by decide, by decide⟩

theorem catchUp_tailQuery {σ δ : Type} (c : Source) (cfg : Config) (dst : Destination δ)
    (tsRecorder : Option (TimestampRecorder σ)) (since : Int) (q : Query) (st : State σ δ)
    (hs : since > 0) (h : (catchUp c cfg dst tsRecorder since q st).2 = none) :
    (catchUp c cfg dst tsRecorder since q st).1.tailQuery =
      match (c.Find q).1.getLast? with
      | none => st.tailQuery
      | some e => { ts := .gte e.Timestamp, ns := none } := by
  have key := runLoop_restore_tailQuery cfg dst tsRecorder (c.Find q).1
    { st with trace := st.trace ++ [Event.find q] }
  simp only [catchUp, hs, if_true] at h ⊢
  split at h
  · simp at h
  · rename_i hr
    have htq := key hr
    split at h
    · simp at h
    · rename_i hf
      simp only [hr, hf]
      exact htq

/-- In a run whose catch-up phase ran to the end of its cursor, every opening of the
tailing cursor uses the same query: `ts >= t` without a namespace list, `t` being the
timestamp of the last entry the catch-up cursor delivered, or, when it delivered nothing,
the query of lines 152 and 181, `ts > log head` with the namespace list. -/
theorem tail_query_after_catchUp {σ δ : Type} (env : Env) (c : Source) (cfg : Config)
    (dst : Destination δ) (tsRecorder : Option (TimestampRecorder σ)) (s0 : σ) (d0 : δ)
    (headTs : Int) (hhead : c.head = .ok headTs) (hdb : (dbnamesOf c).length > 0)
    (hpos : resolveStart env (readCheckpoint tsRecorder s0).1 > 0)
    (hend : (catchUp c cfg dst tsRecorder (resolveStart env (readCheckpoint tsRecorder s0).1)
      (restoreQueryOf env c tsRecorder s0) (startState c tsRecorder s0 d0 headTs)).2 = none) :
    ∀ q, Event.tail q ∈ (SyncOplog env c cfg dst tsRecorder s0 d0).state.trace →
      q = match (c.Find (restoreQueryOf env c tsRecorder s0)).1.getLast? with
        | none => { ts := .gt headTs, ns := some (dbnamesOf c) }
        | some e => { ts := .gte e.Timestamp, ns := none } := by
  intro q hq
  obtain ⟨_, _, p3⟩ := SyncOplog_phases env c cfg dst tsRecorder s0 d0 headTs hhead hdb
  rcases p3 _ hq with h | h | h | h
  · rcases startState_trace_kinds c tsRecorder s0 d0 headTs _ h with h | h | h <;> simp at h
  · simp [Event.isControl] at h
  · simp at h
  · simp only [Event.tail.injEq] at h
    rw [h]
    exact catchUp_tailQuery c cfg dst tsRecorder _ _ _ hpos hend

/-- C10 at a failing input. From the checkpoint 99, over a log holding an entry of the
database `app` at 100 and an entry of the internal database `admin` at 101, the catch-up
query carries the namespace list `[app.*]`, which the `admin` entry does not match; the
tailing cursor is opened with `ts >= 100` and no namespace list, and the `admin` entry is
delivered and applied. -/
theorem C10_tailing_query_has_no_namespace_list :
    (SyncOplog (flags 0 0) (logSource literalMatch mixedLog ["admin", "app", "local"])
      { IgnoreApplyError := false } acceptAll
      (some (DiskTimestampRecorder.toRecorder ⟨"ts"⟩)) (singleFile "ts" (bytes "99"))
      ()).state.trace =
      [Event.headLookup, Event.recorderRead, Event.listDatabases,
       Event.find { ts := .gt 99, ns := some [{ Pattern := "app.*" }] },
       Event.next (entry 100 "i" "app.users"),
       Event.applyOps [entry 100 "i" "app.users"] (.response { Ok := true, ErrMsg := "" }),
       Event.write 100,
       Event.tail { ts := .gte 100, ns := none },
       Event.next (entry 100 "i" "app.users"),
       Event.applyOps [entry 100 "i" "app.users"] (.response { Ok := true, ErrMsg := "" }),
       Event.write 100,
       Event.next (entry 101 "i" "admin.system.users"),
       Event.applyOps [entry 101 "i" "admin.system.users"]
         (.response { Ok := true, ErrMsg := "" }),
       Event.write 101] ∧
    literalMatch { Pattern := "app.*" } "admin.system.users" = false ∧
    Query.matches literalMatch { ts := .gt 99, ns := some [{ Pattern := "app.*" }] }
      (entry 101 "i" "admin.system.users") = false := by
  refine ⟨by decide, by decide, by decide⟩

/-! ## Resuming from a checkpoint -/

theorem appliedEntries_eq {cfg : Config} {hr : Bool} {tr : List Event} {o : Outcome}
    (h : RunTrace cfg hr tr o) :
    appliedEntries tr = (delivered tr).filter (fun e => decide (e.Operation ≠ "n")) := by
  rw [appliedEntries, h.applied_eq, flatten_map_singleton]

/-- Where a delivered entry of a run comes from: the catch-up cursor, opened when the
resolved start is positive, or a round of the tailing cursor, opened with the `tailQuery`
the catch-up phase left after it ran to the end. -/
theorem SyncOplog_delivered_mem {σ δ : Type} (env : Env) (c : Source) (cfg : Config)
    (dst : Destination δ) (tsRecorder : Option (TimestampRecorder σ)) (s0 : σ) (d0 : δ)
    (headTs : Int) (hhead : c.head = .ok headTs) (hdb : (dbnamesOf c).length > 0) :
    ∀ e ∈ delivered (SyncOplog env c cfg dst tsRecorder s0 d0).state.trace,
      (resolveStart env (readCheckpoint tsRecorder s0).1 > 0 ∧
        e ∈ (c.Find (restoreQueryOf env c tsRecorder s0)).1) ∨
      ((catchUp c cfg dst tsRecorder (resolveStart env (readCheckpoint tsRecorder s0).1)
          (restoreQueryOf env c tsRecorder s0) (startState c tsRecorder s0 d0 headTs)).2 = none ∧
        ∃ round ∈ c.Tail (catchUp c cfg dst tsRecorder
            (resolveStart env (readCheckpoint tsRecorder s0).1)
            (restoreQueryOf env c tsRecorder s0)
            (startState c tsRecorder s0 d0 headTs)).1.tailQuery, e ∈ round.entries) := by
  obtain ⟨evs, h1, _, _, h4, _⟩ := catchUp_trace c cfg dst tsRecorder
    (resolveStart env (readCheckpoint tsRecorder s0).1)
    (restoreQueryOf env c tsRecorder s0) (startState c tsRecorder s0 d0 headTs)
  have hst := delivered_of_blocks_control c tsRecorder s0 d0 headTs
  have hcu : ∀ e ∈ delivered evs, resolveStart env (readCheckpoint tsRecorder s0).1 > 0 ∧
      e ∈ (c.Find (restoreQueryOf env c tsRecorder s0)).1 := by
    intro e he
    have := h4.subset he
    by_cases hpos : resolveStart env (readCheckpoint tsRecorder s0).1 > 0
    · simp only [hpos, if_true] at this
      exact ⟨hpos, this⟩
    · simp [hpos] at this
  intro e he
  cases hr : (catchUp c cfg dst tsRecorder (resolveStart env (readCheckpoint tsRecorder s0).1)
      (restoreQueryOf env c tsRecorder s0) (startState c tsRecorder s0 d0 headTs)).2 with
  | some err =>
    have hrun : (SyncOplog env c cfg dst tsRecorder s0 d0).state =
        (catchUp c cfg dst tsRecorder (resolveStart env (readCheckpoint tsRecorder s0).1)
          (restoreQueryOf env c tsRecorder s0) (startState c tsRecorder s0 d0 headTs)).1 := by
      simp only [SyncOplog, hhead, hdb, if_true, hr]
    rw [hrun, h1, delivered_append, hst, List.nil_append] at he
    exact Or.inl (hcu e he)
  | none =>
    have hrun : (SyncOplog env c cfg dst tsRecorder s0 d0).state =
        (tailing env c cfg dst tsRecorder
          (catchUp c cfg dst tsRecorder (resolveStart env (readCheckpoint tsRecorder s0).1)
          (restoreQueryOf env c tsRecorder s0) (startState c tsRecorder s0 d0 headTs)).1).state := by
      simp only [SyncOplog, hhead, hdb, if_true, hr]
    obtain ⟨evs2, g1, _, g3⟩ := tailing_trace env c cfg dst tsRecorder
      (catchUp c cfg dst tsRecorder (resolveStart env (readCheckpoint tsRecorder s0).1)
        (restoreQueryOf env c tsRecorder s0) (startState c tsRecorder s0 d0 headTs)).1
    rw [hrun, g1, h1, delivered_append, delivered_append, hst, List.nil_append] at he
    rcases List.mem_append.mp he with h | h
    · exact Or.inl (hcu e h)
    · right
      refine ⟨rfl, ?_⟩
      have hm := g3.subset h
      simp only [List.mem_flatten, List.mem_map] at hm
      obtain ⟨l, ⟨round, hround, rfl⟩, hel⟩ := hm
      exact ⟨round, hround, hel⟩

/-- A tailing cursor is opened only after the catch-up phase ran to the end. -/
theorem catchUp_done_of_tail {σ δ : Type} (env : Env) (c : Source) (cfg : Config)
    (dst : Destination δ) (tsRecorder : Option (TimestampRecorder σ)) (s0 : σ) (d0 : δ)
    (headTs : Int) (hhead : c.head = .ok headTs) (hdb : (dbnamesOf c).length > 0)
    (q : Query) (hq : Event.tail q ∈ (SyncOplog env c cfg dst tsRecorder s0 d0).state.trace) :
    (catchUp c cfg dst tsRecorder (resolveStart env (readCheckpoint tsRecorder s0).1)
      (restoreQueryOf env c tsRecorder s0) (startState c tsRecorder s0 d0 headTs)).2 = none := by
  cases hr : (catchUp c cfg dst tsRecorder (resolveStart env (readCheckpoint tsRecorder s0).1)
      (restoreQueryOf env c tsRecorder s0) (startState c tsRecorder s0 d0 headTs)).2 with
  | none => rfl
  | some err =>
    exfalso
    have hrun : (SyncOplog env c cfg dst tsRecorder s0 d0).state =
        (catchUp c cfg dst tsRecorder (resolveStart env (readCheckpoint tsRecorder s0).1)
          (restoreQueryOf env c tsRecorder s0) (startState c tsRecorder s0 d0 headTs)).1 := by
      simp only [SyncOplog, hhead, hdb, if_true, hr]
    rw [hrun] at hq
    obtain ⟨_, _, k3⟩ := catchUp_events_kind c cfg dst tsRecorder
      (resolveStart env (readCheckpoint tsRecorder s0).1)
      (restoreQueryOf env c tsRecorder s0) (startState c tsRecorder s0 d0 headTs)
    rcases k3 _ hq with h | h | h
    · rcases startState_trace_kinds c tsRecorder s0 d0 headTs _ h with h | h | h <;> simp at h
    · simp [Event.isControl] at h
    · simp at h

/-- C7, as the program does it. A run started from the checkpoint `T` (positive and greater
than the since-timestamp) that passed the start-up checks, over a source whose log head
is not before `T` and whose cursors deliver only entries that satisfy their query, with
any destination and any sequence of tailing rounds. The catch-up cursor is opened with
`ts > T` and the namespace list. Only entries with a timestamp greater than `T` are
delivered, so only such entries are applied, and no no-op. No delivered entry that is not
a no-op is skipped: it is submitted to `applyOps` exactly as many times as it is
delivered. And it can be delivered more than once: every tailing cursor is opened with
`ts >= t` and no namespace list, `t` being the timestamp of the last entry the catch-up
cursor held, a query which that entry, already applied in the catch-up phase, satisfies;
only when the catch-up cursor held nothing is the tailing query `ts > log head` with the
namespace list. The applies counted here are the calls of `Run` the run made: the
destination ends in the state that `Run`, called with the recorded batches in order,
leaves from its initial state, and the recorded results are what these calls returned. -/
theorem C7_resume_from_checkpoint {σ δ : Type} (rx : RegEx → String → Bool) (env : Env)
    (c : Source) (cfg : Config) (dst : Destination δ) (r : TimestampRecorder σ) (s0 : σ)
    (d0 : δ) (T headTs : Int)
    (hhead : c.head = .ok headTs) (hdb : (dbnamesOf c).length > 0)
    (hread : (r.Read s0).1 = .ok T) (hT : 0 < T) (hS : sinceFlagTimestamp env < T)
    (hlog : T ≤ headTs)
    (hfind : ∀ q, ∀ e ∈ (c.Find q).1, Query.matches rx q e = true)
    (htail : ∀ q, ∀ round ∈ c.Tail q, ∀ e ∈ round.entries, Query.matches rx q e = true) :
    (∃ rest, (SyncOplog env c cfg dst (some r) s0 d0).state.trace =
      Event.headLookup :: Event.recorderRead :: Event.listDatabases ::
        Event.find { ts := .gt T, ns := some (dbnamesOf c) } :: rest) ∧
    (∀ e ∈ delivered (SyncOplog env c cfg dst (some r) s0 d0).state.trace,
      T < e.Timestamp) ∧
    (∀ e ∈ appliedEntries (SyncOplog env c cfg dst (some r) s0 d0).state.trace,
      T < e.Timestamp ∧ e.Operation ≠ "n") ∧
    (∀ e : Oplog, e.Operation ≠ "n" →
      (appliedEntries (SyncOplog env c cfg dst (some r) s0 d0).state.trace).count e =
        (delivered (SyncOplog env c cfg dst (some r) s0 d0).state.trace).count e) ∧
    (∀ q, Event.tail q ∈ (SyncOplog env c cfg dst (some r) s0 d0).state.trace →
      ((c.Find { ts := .gt T, ns := some (dbnamesOf c) }).1.getLast? = none ∧
        q = { ts := .gt headTs, ns := some (dbnamesOf c) }) ∨
      ∃ l, (c.Find { ts := .gt T, ns := some (dbnamesOf c) }).1.getLast? = some l ∧
        q = { ts := .gte l.Timestamp, ns := none } ∧ T < l.Timestamp ∧
        Query.matches rx q l = true) ∧
    ((SyncOplog env c cfg dst (some r) s0 d0).state.dst =
        replayRuns dst (appliedBatches (SyncOplog env c cfg dst (some r) s0 d0).state.trace)
          d0 ∧
      appliedResults (SyncOplog env c cfg dst (some r) s0 d0).state.trace =
        resultsOf dst (appliedBatches (SyncOplog env c cfg dst (some r) s0 d0).state.trace)
          d0) := by
  have hR : resolveStart env (readCheckpoint (some r) s0).1 = T := by
    simp [resolveStart, readCheckpoint, hread, hS]
  have hq1 : restoreQueryOf env c (some r) s0 = { ts := .gt T, ns := some (dbnamesOf c) } := by
    simp [restoreQueryOf, restoreBound, readCheckpoint, hread, hS]
  have hpos : resolveStart env (readCheckpoint (some r) s0).1 > 0 := by rw [hR]; exact hT
  have hrun := SyncOplog_trace env c cfg dst (some r) s0 d0
  have happ := appliedEntries_eq hrun
  obtain ⟨p1, _, _⟩ := SyncOplog_phases env c cfg dst (some r) s0 d0 headTs hhead hdb
  have hlast : ∀ l, (c.Find { ts := .gt T, ns := some (dbnamesOf c) }).1.getLast? = some l →
      T < l.Timestamp := by
    intro l hl
    have := hfind _ l (List.mem_of_getLast?_eq_some hl)
    simp only [Query.matches, Bool.and_eq_true, decide_eq_true_eq] at this
    exact this.1
  have htq : ∀ q, Event.tail q ∈ (SyncOplog env c cfg dst (some r) s0 d0).state.trace →
      q = match (c.Find { ts := .gt T, ns := some (dbnamesOf c) }).1.getLast? with
        | none => { ts := .gt headTs, ns := some (dbnamesOf c) }
        | some e => { ts := .gte e.Timestamp, ns := none } := by
    intro q hq
    have hend := catchUp_done_of_tail env c cfg dst (some r) s0 d0 headTs hhead hdb q hq
    have := tail_query_after_catchUp env c cfg dst (some r) s0 d0 headTs hhead hdb hpos hend
      q hq
    rw [hq1] at this
    exact this
  have hdel : ∀ e ∈ delivered (SyncOplog env c cfg dst (some r) s0 d0).state.trace,
      T < e.Timestamp := by
    intro e he
    rcases SyncOplog_delivered_mem env c cfg dst (some r) s0 d0 headTs hhead hdb e he with
      ⟨_, h⟩ | ⟨hend, round, hround, hmem⟩
    · have := hfind _ e h
      rw [hq1] at this
      simp only [Query.matches, Bool.and_eq_true, decide_eq_true_eq] at this
      exact this.1
    · have hm := htail _ round hround e hmem
      rw [catchUp_tailQuery c cfg dst (some r) _ _ _ hpos hend, hq1] at hm
      cases hl : (c.Find { ts := .gt T, ns := some (dbnamesOf c) }).1.getLast? with
      | none =>
        rw [hl] at hm
        simp only [startState, Query.matches, Bool.and_eq_true, decide_eq_true_eq] at hm
        exact lt_of_le_of_lt hlog hm.1
      | some l =>
        rw [hl] at hm
        simp only [Query.matches, Bool.and_true, decide_eq_true_eq] at hm
        exact lt_of_lt_of_le (hlast l hl) hm
  refine ⟨?_, hdel, ?_, ?_, ?_, SyncOplog_runs env c cfg dst (some r) s0 d0⟩
  · obtain ⟨rest, h⟩ := p1 hpos
    exact ⟨rest, by rw [h, hq1]; rfl⟩
  · intro e he
    rw [happ] at he
    obtain ⟨hmem, hnn⟩ := List.mem_filter.mp he
    exact ⟨hdel e hmem, by simpa using hnn⟩
  · intro e hnn
    have hp : decide (e.Operation ≠ "n") = true := by simpa using hnn
    rw [happ, List.count_filter (p := fun e : Oplog => decide (e.Operation ≠ "n")) hp]
  · intro q hq
    have h := htq q hq
    cases hl : (c.Find { ts := .gt T, ns := some (dbnamesOf c) }).1.getLast? with
    | none =>
      rw [hl] at h
      exact Or.inl ⟨rfl, h⟩
    | some l =>
      rw [hl] at h
      exact Or.inr ⟨l, rfl, h, hlast l hl, by rw [h]; simp [Query.matches]⟩

/-- The statement of C7 on the sample log from a checkpoint file holding 99: the update at
102 is submitted as many times as it is delivered, which is twice. -/
theorem C7_witness :
    (appliedEntries
      (SyncOplog (flags 0 0) (logSource literalMatch sampleLog ["admin", "app", "local"])
        { IgnoreApplyError := false } acceptAll
        (some (DiskTimestampRecorder.toRecorder ⟨"ts"⟩)) (singleFile "ts" (bytes "99"))
        ()).state.trace).count (entry 102 "u" "app.users") =
    (delivered
      (SyncOplog (flags 0 0) (logSource literalMatch sampleLog ["admin", "app", "local"])
        { IgnoreApplyError := false } acceptAll
        (some (DiskTimestampRecorder.toRecorder ⟨"ts"⟩)) (singleFile "ts" (bytes "99"))
        ()).state.trace).count (entry 102 "u" "app.users") ∧
    (delivered
      (SyncOplog (flags 0 0) (logSource literalMatch sampleLog ["admin", "app", "local"])
        { IgnoreApplyError := false } acceptAll
        (some (DiskTimestampRecorder.toRecorder ⟨"ts"⟩)) (singleFile "ts" (bytes "99"))
        ()).state.trace).count (entry 102 "u" "app.users") = 2 :=
  ⟨(C7_resume_from_checkpoint literalMatch (flags 0 0)
      (logSource literalMatch sampleLog ["admin", "app", "local"])
      { IgnoreApplyError := false } acceptAll (DiskTimestampRecorder.toRecorder ⟨"ts"⟩)
      (singleFile "ts" (bytes "99")) () 99 102 (by decide) (by decide) (by decide)
      (by decide) (by decide) (by decide)
      (fun _ _ he => (List.mem_filter.mp he).2)
      (fun q round hround e he => by
        simp only [logSource, List.mem_singleton] at hround
        subst hround
        exact (List.mem_filter.mp he).2)).2.2.2.1 (entry 102 "u" "app.users") (by decide),
   by decide⟩

/-- C7 as stated fails. Over a log with strictly increasing timestamps, in a run started
from the checkpoint 99 in which every apply is accepted, the update at 102 is applied
twice: once in the catch-up phase and once more in the tailing phase. -/
theorem C7_counterexample :
    sampleLog.Pairwise (fun a b => a.Timestamp < b.Timestamp) ∧
    appliedEntries
      (SyncOplog (flags 0 0) (logSource literalMatch sampleLog ["admin", "app", "local"])
        { IgnoreApplyError := false } acceptAll
        (some (DiskTimestampRecorder.toRecorder ⟨"ts"⟩)) (singleFile "ts" (bytes "99"))
        ()).state.trace =
      [entry 100 "i" "app.users", entry 102 "u" "app.users", entry 102 "u" "app.users"] ∧
    (appliedEntries
      (SyncOplog (flags 0 0) (logSource literalMatch sampleLog ["admin", "app", "local"])
        { IgnoreApplyError := false } acceptAll
        (some (DiskTimestampRecorder.toRecorder ⟨"ts"⟩)) (singleFile "ts" (bytes "99"))
        ()).state.trace).count (entry 102 "u" "app.users") ≠ 1 := by
  refine ⟨by decide, by decide, by decide⟩

/-! ## Claim on the entry pipeline -/

/-- C3. In every run, for every sequence of entries the cursors deliver, the batches
submitted to `applyOps` are exactly the delivered entries whose operation is not `"n"`, in
the order delivered, each in a batch of its own; the delivered entries are a prefix of
what the catch-up cursor and then the tailing cursor hold, and each loop consumes its
cursor whole unless its body returns; a delivered entry that is not a no-op is applied
right away, and when that apply does not complete nothing follows it in the run, which
returns its error; no batch holds a no-op; when the timestamps of the delivered
entries are strictly increasing, so are the applied ones; and the batches recorded are the
calls of `Run` the run made: the destination ends in the state that `Run`, called with
these batches in order, leaves from its initial state, and the recorded results are what
these calls returned. -/
theorem C3_applied_are_delivered_non_noops {σ δ : Type} (env : Env) (c : Source)
    (cfg : Config) (dst : Destination δ) (tsRecorder : Option (TimestampRecorder σ))
    (s0 : σ) (d0 : δ) :
    appliedBatches (SyncOplog env c cfg dst tsRecorder s0 d0).state.trace =
      ((delivered (SyncOplog env c cfg dst tsRecorder s0 d0).state.trace).filter
        (fun e => decide (e.Operation ≠ "n"))).map (fun e => [e]) ∧
    (∃ q, delivered (SyncOplog env c cfg dst tsRecorder s0 d0).state.trace <+:
      (if resolveStart env (readCheckpoint tsRecorder s0).1 > 0
        then (c.Find (restoreQueryOf env c tsRecorder s0)).1 else []) ++
      ((c.Tail q).map (·.entries)).flatten) ∧
    (∀ (st : State σ δ) (es : List Oplog),
      (∃ evs, (runLoop (restoreEntry cfg dst tsRecorder) st es).1.trace = st.trace ++ evs ∧
        delivered evs <+: es ∧
        ((runLoop (restoreEntry cfg dst tsRecorder) st es).2 = none → delivered evs = es)) ∧
      (∃ evs, (runLoop (tailEntry cfg dst tsRecorder) st es).1.trace = st.trace ++ evs ∧
        delivered evs <+: es ∧
        ((runLoop (tailEntry cfg dst tsRecorder) st es).2 = none → delivered evs = es))) ∧
    (∀ (pre : List Event) (e : Oplog) (post : List Event),
      (SyncOplog env c cfg dst tsRecorder s0 d0).state.trace = pre ++ Event.next e :: post →
      e.Operation ≠ "n" →
      ∃ res post1, post = Event.applyOps [e] res :: post1 ∧
        (completes cfg res = false → post1 = [] ∧
          (SyncOplog env c cfg dst tsRecorder s0 d0).outcome =
            .returned (some (abortError res)))) ∧
    (∀ ops ∈ appliedBatches (SyncOplog env c cfg dst tsRecorder s0 d0).state.trace,
      ∃ e, ops = [e] ∧ e.Operation ≠ "n") ∧
    (((delivered (SyncOplog env c cfg dst tsRecorder s0 d0).state.trace).map
        (·.Timestamp)).Sorted (· < ·) →
      ((appliedBatches (SyncOplog env c cfg dst tsRecorder s0 d0).state.trace).flatten.map
        (·.Timestamp)).Sorted (· < ·)) ∧
    ((SyncOplog env c cfg dst tsRecorder s0 d0).state.dst =
        replayRuns dst (appliedBatches (SyncOplog env c cfg dst tsRecorder s0 d0).state.trace)
          d0 ∧
      appliedResults (SyncOplog env c cfg dst tsRecorder s0 d0).state.trace =
        resultsOf dst (appliedBatches (SyncOplog env c cfg dst tsRecorder s0 d0).state.trace)
          d0) := by
  have hrun := SyncOplog_trace env c cfg dst tsRecorder s0 d0
  have happ := hrun.applied_eq
  refine ⟨happ, SyncOplog_delivered env c cfg dst tsRecorder s0 d0, ?_, ?_, ?_, ?_,
    SyncOplog_runs env c cfg dst tsRecorder s0 d0⟩
  · intro st es
    obtain ⟨evs, h1, _, h3, h4⟩ := runLoop_trace cfg dst tsRecorder
      (restoreEntry cfg dst tsRecorder) (restoreEntry_body cfg dst tsRecorder) es st
    obtain ⟨evs2, g1, _, g3, g4⟩ := runLoop_trace cfg dst tsRecorder
      (tailEntry cfg dst tsRecorder) (tailEntry_body cfg dst tsRecorder) es st
    exact ⟨⟨evs, h1, h3, h4⟩, ⟨evs2, g1, g3, g4⟩⟩
  · intro pre e post heq hne
    obtain ⟨res, post1, h1⟩ := hrun.next_at pre e post heq hne
    refine ⟨res, post1, h1, ?_⟩
    intro hc
    have heq2 : (SyncOplog env c cfg dst tsRecorder s0 d0).state.trace =
        (pre ++ [Event.next e]) ++ Event.applyOps [e] res :: post1 := by
      rw [heq, h1]; simp
    obtain ⟨e2, pre1, _, _, _, h5⟩ := hrun.applyOps_at _ _ _ _ heq2
    rcases h5 with ⟨h6, _⟩ | ⟨_, h7, h8⟩
    · rw [hc] at h6; exact absurd h6 (by simp)
    · exact ⟨h7, h8⟩
  · intro ops hops
    rw [happ] at hops
    obtain ⟨e, he, rfl⟩ := List.mem_map.mp hops
    exact ⟨e, rfl, by simpa using (List.mem_filter.mp he).2⟩
  · intro hs
    rw [happ, flatten_map_singleton]
    exact hs.sublist (List.Sublist.map _ (List.filter_sublist _))

/-- The statement of C3 on two runs over the sample log from a checkpoint file holding
99. In the first, entries 100 and 102 are applied and the no-op 101 is not. In the second
the connection is lost on the apply of 102 in the catch-up phase: the delivered timestamps
100, 101, 102 are strictly increasing, and so are the applied ones. -/
theorem C3_witness :
    appliedBatches (SyncOplog (flags 0 0)
      (logSource literalMatch sampleLog ["admin", "app", "local"])
      { IgnoreApplyError := false } scripted
      (some (DiskTimestampRecorder.toRecorder ⟨"ts"⟩)) (singleFile "ts" (bytes "99"))
      []).state.trace =
      [[entry 100 "i" "app.users"], [entry 102 "u" "app.users"], [entry 102 "u" "app.users"]] ∧
    (∀ ops ∈ appliedBatches (SyncOplog (flags 0 0)
      (logSource literalMatch sampleLog ["admin", "app", "local"])
      { IgnoreApplyError := false } scripted
      (some (DiskTimestampRecorder.toRecorder ⟨"ts"⟩)) (singleFile "ts" (bytes "99"))
      []).state.trace, ∃ e, ops = [e] ∧ e.Operation ≠ "n") ∧
    delivered (SyncOplog (flags 0 0)
      (logSource literalMatch sampleLog ["admin", "app", "local"])
      { IgnoreApplyError := false } scripted
      (some (DiskTimestampRecorder.toRecorder ⟨"ts"⟩)) (singleFile "ts" (bytes "99"))
      [.response { Ok := true, ErrMsg := "" }, .failed (.other "EOF")]).state.trace =
      sampleLog ∧
    ((appliedBatches (SyncOplog (flags 0 0)
      (logSource literalMatch sampleLog ["admin", "app", "local"])
      { IgnoreApplyError := false } scripted
      (some (DiskTimestampRecorder.toRecorder ⟨"ts"⟩)) (singleFile "ts" (bytes "99"))
      [.response { Ok := true, ErrMsg := "" }, .failed (.other "EOF")]).state.trace).flatten.map
        (·.Timestamp)).Sorted (· < ·) :=
  ⟨by decide,
   (C3_applied_are_delivered_non_noops (flags 0 0)
      (logSource literalMatch sampleLog ["admin", "app", "local"])
      { IgnoreApplyError := false } scripted
      (some (DiskTimestampRecorder.toRecorder ⟨"ts"⟩)) (singleFile "ts" (bytes "99"))
      []).2.2.2.2.1,
   by decide,
   (C3_applied_are_delivered_non_noops (flags 0 0)
      (logSource literalMatch sampleLog ["admin", "app", "local"])
      { IgnoreApplyError := false } scripted
      (some (DiskTimestampRecorder.toRecorder ⟨"ts"⟩)) (singleFile "ts" (bytes "99"))
      [.response { Ok := true, ErrMsg := "" }, .failed (.other "EOF")]).2.2.2.2.2.1
      (by decide)⟩

/-! ## The checkpoint on a concrete run -/

/-- The statement of C6 on the sample log from a checkpoint file holding 99: the values
written are the timestamps of the completed applies, and the file ends holding the text of
the last of them. -/
theorem C6_witness :
    writes (SyncOplog (flags 0 0)
      (logSource literalMatch sampleLog ["admin", "app", "local"])
      { IgnoreApplyError := false } acceptAll
      (some (DiskTimestampRecorder.toRecorder ⟨"ts"⟩)) (singleFile "ts" (bytes "99"))
      ()).state.trace = [100, 102, 102] ∧
    (replayWrites (DiskTimestampRecorder.toRecorder ⟨"ts"⟩) [100, 102, 102]
      (singleFile "ts" (bytes "99"))).content "ts" = some (bytes "102") ∧
    (SyncOplog (flags 0 0)
      (logSource literalMatch sampleLog ["admin", "app", "local"])
      { IgnoreApplyError := false } acceptAll
      (some (DiskTimestampRecorder.toRecorder ⟨"ts"⟩)) (singleFile "ts" (bytes "99"))
      ()).state.recorder =
    replayWrites (DiskTimestampRecorder.toRecorder ⟨"ts"⟩)
      (completedTimestamps { IgnoreApplyError := false } (SyncOplog (flags 0 0)
        (logSource literalMatch sampleLog ["admin", "app", "local"])
        { IgnoreApplyError := false } acceptAll
        (some (DiskTimestampRecorder.toRecorder ⟨"ts"⟩)) (singleFile "ts" (bytes "99"))
        ()).state.trace)
      ((DiskTimestampRecorder.toRecorder ⟨"ts"⟩).Read (singleFile "ts" (bytes "99"))).2 :=
  ⟨by decide, by decide, (C6_checkpoint_follows_apply (flags 0 0)
      (logSource literalMatch sampleLog ["admin", "app", "local"])
      { IgnoreApplyError := false } acceptAll
      (DiskTimestampRecorder.toRecorder ⟨"ts"⟩) (singleFile "ts" (bytes "99")) ()).2.2.2.2.2.1⟩

/-! ## A rejected apply under `IgnoreApplyError` -/

/-- C4 at a failing input. `IgnoreApplyError` is set; the source log holds an insert at
100, a no-op at 101 and an update at 102; the checkpoint file holds 99. The destination
rejects the first apply with the reply `{ok: 0, errmsg: "E11000"}`. `Session.Run` returns
an error for that reply, so the run stops on line 208 with the applying-ops error: the
rejected apply is the last event, the timestamp 100 is not written and the file still
holds 99, and the update at 102 is never applied. When the rejecting reply holds no
`errmsg`, the same run goes on: 100 is written and the update at 102 is applied. -/
theorem C4_rejection_with_errmsg_stops_the_run :
    sessionRun (.reply { ok := false, errmsg := some "E11000" }) = .failed (.other "E11000") ∧
    (SyncOplog (flags 0 0) (logSource literalMatch sampleLog ["admin", "app", "local"])
      { IgnoreApplyError := true } serverScripted
      (some (DiskTimestampRecorder.toRecorder ⟨"ts"⟩)) (singleFile "ts" (bytes "99"))
      [.reply { ok := false, errmsg := some "E11000" }]).state.trace =
      [Event.headLookup, Event.recorderRead, Event.listDatabases,
       Event.find { ts := .gt 99, ns := some [{ Pattern := "app.*" }] },
       Event.next (entry 100 "i" "app.users"),
       Event.applyOps [entry 100 "i" "app.users"] (.failed (.other "E11000"))] ∧
    (SyncOplog (flags 0 0) (logSource literalMatch sampleLog ["admin", "app", "local"])
      { IgnoreApplyError := true } serverScripted
      (some (DiskTimestampRecorder.toRecorder ⟨"ts"⟩)) (singleFile "ts" (bytes "99"))
      [.reply { ok := false, errmsg := some "E11000" }]).outcome =
      .returned (some (.applyingOps (.other "E11000"))) ∧
    (SyncOplog (flags 0 0) (logSource literalMatch sampleLog ["admin", "app", "local"])
      { IgnoreApplyError := true } serverScripted
      (some (DiskTimestampRecorder.toRecorder ⟨"ts"⟩)) (singleFile "ts" (bytes "99"))
      [.reply { ok := false, errmsg := some "E11000" }]).state.recorder.content "ts" =
      some (bytes "99") ∧
    (SyncOplog (flags 0 0) (logSource literalMatch sampleLog ["admin", "app", "local"])
      { IgnoreApplyError := true } serverScripted
      (some (DiskTimestampRecorder.toRecorder ⟨"ts"⟩)) (singleFile "ts" (bytes "99"))
      [.reply { ok := false, errmsg := none }]).state.trace =
      [Event.headLookup, Event.recorderRead, Event.listDatabases,
       Event.find { ts := .gt 99, ns := some [{ Pattern := "app.*" }] },
       Event.next (entry 100 "i" "app.users"),
       Event.applyOps [entry 100 "i" "app.users"] (.response { Ok := false, ErrMsg := "" }),
       Event.write 100,
       Event.next (entry 101 "n" "app.users"),
       Event.next (entry 102 "u" "app.users"),
       Event.applyOps [entry 102 "u" "app.users"] (.response { Ok := true, ErrMsg := "" }),
       Event.write 102,
       Event.tail { ts := .gte 102, ns := none },
       Event.next (entry 102 "u" "app.users"),
       Event.applyOps [entry 102 "u" "app.users"] (.response { Ok := true, ErrMsg := "" }),
       Event.write 102] := by
  refine ⟨by decide, by decide, by decide, by decide, by decide⟩

end SyncMongo
